import Mathlib

/-!
Verification development for the RFQ template-to-document projection and
spreadsheet round-trip engine.

The TypeScript source operates on loosely typed (mongoose Mixed) document
trees.  We embed the dynamic values as `JSVal` (JS primitives; objects and
arrays do not occur at the positions the verified code reads, except where
noted), JS objects used as records as association lists (`Row`), and absent
object keys as `Option`/`JSVal.undef`.  Worksheets are lists of rows of
cells; a cell carries its raw value, its fill, and whether its font is bold,
which is all the parsing code inspects.  Dates and logging are not modelled.
-/

namespace Rick

/-- Primitive JavaScript values as stored in the loosely typed document
trees.  `undef` doubles as the value of an absent object key.  JS numbers
are embedded as rationals; `NaN` does not occur as a stored tree value and
is modelled where it matters (`Number` coercion) by `Option Rat`. -/
inductive JSVal where
  | undef
  | jnull
  | bool (b : Bool)
  | num (q : Rat)
  | str (s : String)
deriving DecidableEq, Repr

/-- JS truthiness of a primitive value. -/
def jsTruthy : JSVal → Bool
  | .undef => false
  | .jnull => false
  | .bool b => b
  | .num q => q != 0
  | .str s => s != ""

/-- JS `a || b` on primitive values. -/
def jsOr (a b : JSVal) : JSVal := if jsTruthy a then a else b

/-- JS `a ?? b` (nullish coalescing) on primitive values. -/
def jsNullish (a b : JSVal) : JSVal :=
  match a with
  | .undef => b
  | .jnull => b
  | v => v

/-- Tests whether a value is the literal `false` (JS `v === false`). -/
def isFalseLit : JSVal → Bool
  | .bool false => true
  | _ => false

/-- Tests whether a value is a string (JS `typeof v === 'string'`). -/
def isStr : JSVal → Bool
  | .str _ => true
  | _ => false

/-- Rendering of a rational as a JS-ish numeral.  Integers render exactly;
non-integers fall back to the `num/den` form (an approximation of JS float
formatting; the verified paths only compare strings produced from string
cells, never from non-integer numbers). -/
def ratToString (q : Rat) : String :=
  if q.den == 1 then toString q.num else toString q.num ++ "/" ++ toString q.den

/-- Approximation of the ExcelJS `cell.text` rendering of a raw value. -/
def jsToText : JSVal → String
  | .undef => ""
  | .jnull => ""
  | .bool b => cond b "true" "false"
  | .num q => ratToString q
  | .str s => s

/-- String used when a JS value is coerced into an object property key. -/
def jsPropKey : JSVal → String
  | .undef => "undefined"
  | .jnull => "null"
  | .bool b => cond b "true" "false"
  | .num q => ratToString q
  | .str s => s

/-- A JS object used as a keyed record: an association list in key insertion
order (real JS objects have unique keys; `setKey` preserves uniqueness). -/
abbrev Row := List (String × JSVal)

/-- Property read `r[k]`; an absent key reads as `undefined`. -/
def getKey (r : Row) (k : String) : JSVal :=
  match r.find? (fun p => p.1 == k) with
  | none => .undef
  | some p => p.2

/-- Property write `r[k] = v`: overwrite an existing key in place, otherwise
append the key. -/
def setKey : Row → String → JSVal → Row
  | [], k, v => [(k, v)]
  | (k0, v0) :: rest, k, v =>
    if k0 == k then (k0, v) :: rest else (k0, v0) :: setKey rest k v

/-- Replaces the first list element satisfying `p` (the JS pattern of
`find`/`findIndex` followed by an in-place mutation of the found element). -/
def updateFirst (p : α → Bool) (f : α → α) : List α → List α
  | [] => []
  | x :: xs => if p x then f x :: xs else x :: updateFirst p f xs

/-- JS `s.trim()` (kernel-computable list-based model of whitespace
stripping at both ends). -/
def strTrim (s : String) : String :=
  String.mk (((s.data.dropWhile Char.isWhitespace).reverse.dropWhile Char.isWhitespace).reverse)

/-- JS `s.toLowerCase()`. -/
def strLower (s : String) : String := String.mk (s.data.map Char.toLower)

/-- JS `s.startsWith(pre)`. -/
def strStartsWith (s pre : String) : Bool := pre.data.isPrefixOf s.data

/-- JS `s.endsWith(suf)`. -/
def strEndsWith (s suf : String) : Bool := suf.data.isSuffixOf s.data

/-- An unnormalized rational `num / den` with positive denominator: the
embedding of a JS number produced by `Number` (kept unnormalized so that
all arithmetic is plain integer arithmetic). -/
abbrev JNum := Int × Nat

/-- Natural number denoted by a list of decimal digit characters. -/
def digitsToNat (l : List Char) : Nat :=
  l.foldl (fun acc c => acc * 10 + (c.toNat - 48)) 0

/-- Decimal fragment of the JS `Number(string)` coercion: optional sign,
decimal digits, optional fraction; the empty (or all-blank) string is `0`;
anything else is `NaN` (`none`).  Exponent notation is not modelled. -/
def parseDecimal (s : String) : Option JNum :=
  let t := strTrim s
  if t == "" then some (0, 1)
  else
    let signAndRest : Int × List Char :=
      match t.data with
      | '-' :: cs => (-1, cs)
      | '+' :: cs => (1, cs)
      | cs => (1, cs)
    let sign := signAndRest.1
    let rest := signAndRest.2
    let intPart := rest.takeWhile Char.isDigit
    let rest2 := rest.drop intPart.length
    match rest2 with
    | [] =>
      if intPart.isEmpty then none
      else some (sign * (digitsToNat intPart : Int), 1)
    | '.' :: frac =>
      if frac.all Char.isDigit && !(intPart.isEmpty && frac.isEmpty) then
        some (sign * (digitsToNat (intPart ++ frac) : Int), 10 ^ frac.length)
      else none
    | _ => none

/-- JS `Number(v)` on primitive values, with `none` playing the role of
`NaN`. -/
def jsToNumber : JSVal → Option JNum
  | .undef => none
  | .jnull => some (0, 1)
  | .bool b => some (cond b 1 0, 1)
  | .num q => some (q.num, q.den)
  | .str s => parseDecimal s

/-- JS `<` between two `Number` results: cross-multiplied comparison of
the unnormalized rationals (denominators produced by `Number` are always
positive); every comparison involving `NaN` is false. -/
def jsNumLt (a b : Option JNum) : Bool :=
  match a, b with
  | some x, some y => decide (x.1 * (y.2 : Int) < y.1 * (x.2 : Int))
  | _, _ => false

/-- Best-effort `JSON.stringify` of a primitive value (string escaping not
modelled; used only to fill free-text content, never inspected). -/
def jsonStringify : JSVal → String
  | .undef => "undefined"
  | .jnull => "null"
  | .bool b => cond b "true" "false"
  | .num q => ratToString q
  | .str s => "\"" ++ s ++ "\""

/-! ## Document tree model

Shared by the RFQ template processed structure, the projected supplier
document (SQR sections) and the reconciliation code.  String-typed keys
that the source reads with `||` fallbacks are embedded as `String` with
`""` standing for an absent key (the source treats both as falsy); the
loosely typed flags (`visibleToSupplier`, `editableBySupplier`,
`required`) and `value`/`defaultValue` are embedded as `JSVal`. -/

structure Field where
  id : String
  label : String
  name : String := ""
  type : String := ""
  value : JSVal := .undef
  defaultValue : JSVal := .undef
  options : Option (List String) := none
  required : JSVal := .undef
  visibleToSupplier : JSVal := .undef
  editableBySupplier : JSVal := .undef
deriving DecidableEq, Repr

structure Column where
  id : String
  header : String
  accessorKey : String
  type : String := ""
  width : JSVal := .undef
  visibleToSupplier : JSVal := .undef
  editableBySupplier : JSVal := .undef
deriving DecidableEq, Repr

structure Table where
  id : String
  title : String
  columns : List Column
  data : Option (List Row) := none
  visibleToSupplier : JSVal := .undef
  editableBySupplier : JSVal := .undef
deriving DecidableEq, Repr

structure Subsection where
  id : String
  title : String
  type : String := ""
  fields : Option (List Field) := none
  tables : Option (List Table) := none
  content : JSVal := .undef
  visibleToSupplier : JSVal := .undef
  editableBySupplier : JSVal := .undef
deriving DecidableEq, Repr

structure Section where
  id : String
  title : String
  type : String := ""
  fields : Option (List Field) := none
  subsections : Option (List Subsection) := none
  tables : Option (List Table) := none
  content : JSVal := .undef
  visibleToSupplier : JSVal := .undef
  editableBySupplier : JSVal := .undef
deriving DecidableEq, Repr

/-- Extraction metadata attached to a reconciled structure (the source also
records a `submittedAt` date, which is not modelled). -/
structure ExtractMeta where
  rfqId : String
  supplierId : String
deriving DecidableEq, Repr

/-- A processed template structure.  `questionnaire` is an extra loosely
typed key only tested for truthiness by `processQuestionnaire`. -/
structure Structure where
  sections : Option (List Section) := none
  questionnaire : JSVal := .undef
  metadata : Option ExtractMeta := none
deriving DecidableEq, Repr

structure Template where
  processedStructure : Option Structure := none
deriving DecidableEq, Repr

/-- An RFQ supplier record; only the identity and stored verification token
are relevant to the verified code (name/email/status are not modelled). -/
structure Supplier where
  id : String
  excelUUID : Option String := none
deriving DecidableEq, Repr

/-- Value of the `options` key of an ad hoc questionnaire item: absent, a
primitive, or an array of option strings (the only shapes the source
distinguishes, via truthiness and `Array.isArray`). -/
inductive QOptions where
  | absent
  | prim (v : JSVal)
  | arr (l : List String)
deriving DecidableEq, Repr

/-- An ad hoc questionnaire item of a template-less RFQ. -/
structure QItem where
  question : JSVal := .undef
  label : JSVal := .undef
  type : JSVal := .undef
  options : QOptions := .absent
deriving DecidableEq, Repr

/-- An ad hoc questionnaire section of a template-less RFQ. -/
structure QSectionIn where
  id : String := ""
  title : String
  data : Option (List QItem) := none
deriving DecidableEq, Repr

/-- The RFQ document, restricted to the keys the verified code reads. -/
structure RFQ where
  id : String := ""
  title : JSVal := .undef
  description : JSVal := .undef
  dueDate : JSVal := .undef
  scopeOfWork : JSVal := .undef
  questionnaire : Option (List QSectionIn) := none
  items : Option (List Row) := none
  suppliers : List Supplier := []
  template : Option Template := none
deriving DecidableEq, Repr

/-! ## Visibility/editability projector (sqr.model.ts)

Embeds `processRFQSections`, `processFields`, `processSubsections` and
`processTables`: the projection of an RFQ into the supplier-visible SQR
section tree. -/

namespace SqrModel

/-- The per-field copy made by the field projection: substitute
`defaultValue || value || ''`, force visibility, and default
`required`/`editableBySupplier` with `|| false` (the copied object literal
has no `name` or `defaultValue` key). -/
def projectField (f : Field) : Field :=
  { id := f.id
    label := f.label
    type := f.type
    value := jsOr f.defaultValue (jsOr f.value (.str ""))
    options := f.options
    required := jsOr f.required (.bool false)
    visibleToSupplier := .bool true
    editableBySupplier := jsOr f.editableBySupplier (.bool false) }

/-- Projection of a list of fields: drop fields whose `visibleToSupplier`
is literally `false` and copy the rest. -/
def processFields (fields : List Field) : List Field :=
  (fields.filter (fun f => !isFalseLit f.visibleToSupplier)).map projectField

/-- The per-column copy made by the table projection. -/
def projectColumn (c : Column) : Column :=
  { id := c.id
    header := c.header
    accessorKey := c.accessorKey
    type := c.type
    width := c.width
    visibleToSupplier := .bool true
    editableBySupplier := jsOr c.editableBySupplier (.bool false) }

/-- The per-table copy made by the table projection: prune invisible
columns, force visibility, default `data` with `|| []`. -/
def projectTable (t : Table) : Table :=
  { id := t.id
    title := t.title
    columns := (t.columns.filter (fun c => !isFalseLit c.visibleToSupplier)).map projectColumn
    data := some (t.data.getD [])
    visibleToSupplier := .bool true
    editableBySupplier := jsOr t.editableBySupplier (.bool false) }

/-- Projection of a list of tables: drop tables whose `visibleToSupplier`
is literally `false` and copy the rest. -/
def processTables (tables : List Table) : List Table :=
  (tables.filter (fun t => !isFalseLit t.visibleToSupplier)).map projectTable

/-- The per-subsection copy made by the subsection projection. -/
def projectSubsection (s : Subsection) : Subsection :=
  { id := s.id
    title := s.title
    type := if s.type == "" then "form" else s.type
    fields := some (processFields (s.fields.getD []))
    tables := some (processTables (s.tables.getD []))
    content := s.content
    visibleToSupplier := .bool true
    editableBySupplier := jsOr s.editableBySupplier (.bool false) }

/-- Projection of a list of subsections (one nesting level only). -/
def processSubsections (subsections : List Subsection) : List Subsection :=
  (subsections.filter (fun s => !isFalseLit s.visibleToSupplier)).map projectSubsection

/-- The per-section copy made by the template branch of
`processRFQSections`. -/
def projectSection (s : Section) : Section :=
  { id := s.id
    title := s.title
    type := s.type
    fields := some (processFields (s.fields.getD []))
    subsections := some (processSubsections (s.subsections.getD []))
    tables := some (processTables (s.tables.getD []))
    content := s.content
    visibleToSupplier := .bool true
    editableBySupplier := jsOr s.editableBySupplier (.bool false) }

/-- The template branch of `processRFQSections`: drop sections whose
`visibleToSupplier` is literally `false` and project the rest. -/
def processTemplateSections (templateSections : List Section) : List Section :=
  (templateSections.filter (fun s => !isFalseLit s.visibleToSupplier)).map projectSection

/-- Hard-coded General Details section of the template-less branch. -/
def generalDetailsSection (rfq : RFQ) : Section :=
  { id := "general-details"
    title := "General Details"
    type := "form"
    fields := some [
      { id := "title", label := "RFQ Title", type := "text", value := rfq.title,
        required := .bool false, visibleToSupplier := .bool true,
        editableBySupplier := .bool false },
      { id := "description", label := "Description", type := "text", value := rfq.description,
        required := .bool false, visibleToSupplier := .bool true,
        editableBySupplier := .bool false },
      { id := "dueDate", label := "Due Date", type := "date", value := rfq.dueDate,
        required := .bool false, visibleToSupplier := .bool true,
        editableBySupplier := .bool false }]
    subsections := some []
    tables := some []
    visibleToSupplier := .bool true
    editableBySupplier := .bool false }

/-- Hard-coded Scope of Work section of the template-less branch. -/
def scopeOfWorkSection (rfq : RFQ) : Section :=
  { id := "scope-of-work"
    title := "Scope of Work"
    type := "sow"
    fields := some []
    subsections := some []
    tables := some []
    content := .str (match rfq.scopeOfWork with
      | .str s => s
      | v => jsonStringify v)
    visibleToSupplier := .bool true
    editableBySupplier := .bool false }

/-- Value placed under the `options` key of an ad hoc questionnaire row. -/
def qOptionsVal : QOptions → JSVal
  | .absent => .str ""
  | .prim v => if jsTruthy v then v else .str ""
  | .arr l => .str (String.intercalate ", " l)

/-- Row of the ad hoc questionnaire table built from one questionnaire
item. -/
def qItemRow (item : QItem) : Row :=
  [("question", jsOr item.question item.label),
   ("type", item.type),
   ("options", qOptionsVal item.options),
   ("response", .str "")]

/-- Ad hoc questionnaire subsection with its fixed four-column table, the
Response column being the only editable one. -/
def questionnaireSubsection (sec : QSectionIn) : Subsection :=
  { id := if sec.id == "" then "section-" ++ sec.title else sec.id
    title := sec.title
    type := "questionnaire"
    fields := some []
    tables := some [
      { id := "table-" ++ sec.title
        title := sec.title
        columns := [
          { id := "question", header := "Question", accessorKey := "question", type := "string",
            visibleToSupplier := .bool true, editableBySupplier := .bool false },
          { id := "type", header := "Type", accessorKey := "type", type := "string",
            visibleToSupplier := .bool true, editableBySupplier := .bool false },
          { id := "options", header := "Options", accessorKey := "options", type := "string",
            visibleToSupplier := .bool true, editableBySupplier := .bool false },
          { id := "response", header := "Response", accessorKey := "response", type := "string",
            visibleToSupplier := .bool true, editableBySupplier := .bool true }]
        data := some ((sec.data.getD []).map qItemRow)
        visibleToSupplier := .bool true
        editableBySupplier := .bool true }]
    visibleToSupplier := .bool true
    editableBySupplier := .bool true }

/-- Ad hoc Questionnaire section of the template-less branch. -/
def questionnaireSection (qs : List QSectionIn) : Section :=
  { id := "questionnaire"
    title := "Questionnaire"
    type := "form"
    fields := some []
    subsections := some (qs.map questionnaireSubsection)
    tables := some []
    visibleToSupplier := .bool true
    editableBySupplier := .bool true }

/-- JS regex pipeline `key.replace(/([A-Z])/g, ' $1')`: a space is inserted
before every uppercase character. -/
def spaceCaps (s : String) : String :=
  String.mk (s.data.foldr (fun c acc => if c.isUpper then ' ' :: c :: acc else c :: acc) [])

/-- JS regex pipeline `s.replace(/^./, str => str.toUpperCase())`. -/
def capFirst (s : String) : String :=
  match s.data with
  | [] => ""
  | c :: cs => String.mk (c.toUpper :: cs)

/-- Keys of the first item row, JS `Object.keys(items[0] || {})`. -/
def firstRowKeys (its : List Row) : List String :=
  match its with
  | [] => []
  | r :: _ => r.map (fun p => p.1)

/-- Columns of the ad hoc commercial Items table: one per key of the first
item, with `unitPrice`, `quantity` and `comments` editable. -/
def commercialColumns (its : List Row) : List Column :=
  (firstRowKeys its).map (fun k =>
    { id := k
      header := capFirst (spaceCaps k)
      accessorKey := k
      type := "string"
      visibleToSupplier := .bool true
      editableBySupplier := .bool (k == "unitPrice" || k == "quantity" || k == "comments") })

/-- Ad hoc Commercial Table section of the template-less branch. -/
def commercialSection (its : List Row) : Section :=
  { id := "commercial-table"
    title := "Commercial Table"
    type := "commercialTable"
    fields := some []
    subsections := some []
    tables := some [
      { id := "items-table"
        title := "Items"
        columns := commercialColumns its
        data := some its
        visibleToSupplier := .bool true
        editableBySupplier := .bool true }]
    visibleToSupplier := .bool true
    editableBySupplier := .bool true }

/-- Hard-coded supplier-editable Quote Summary section, always appended in
the template-less branch. -/
def quoteSummarySection : Section :=
  { id := "quote-summary"
    title := "Quote Summary"
    type := "form"
    fields := some [
      { id := "totalQuoteValue", label := "Total Quote Value", type := "number",
        value := .str "", required := .bool true, visibleToSupplier := .bool true,
        editableBySupplier := .bool true },
      { id := "currency", label := "Currency", type := "text",
        value := .str "", required := .bool true, visibleToSupplier := .bool true,
        editableBySupplier := .bool true },
      { id := "deliveryTime", label := "Delivery Time (days)", type := "number",
        value := .str "", required := .bool true, visibleToSupplier := .bool true,
        editableBySupplier := .bool true },
      { id := "validityPeriod", label := "Quote Validity Period (days)", type := "number",
        value := .str "30", required := .bool true, visibleToSupplier := .bool true,
        editableBySupplier := .bool true },
      { id := "comments", label := "Additional Comments", type := "textarea",
        value := .str "", required := .bool false, visibleToSupplier := .bool true,
        editableBySupplier := .bool true }]
    subsections := some []
    tables := some []
    visibleToSupplier := .bool true
    editableBySupplier := .bool true }

/-- The template-less branch of `processRFQSections`: synthesize the fixed
section layout from the raw RFQ business objects. -/
def adHocSections (rfq : RFQ) : List Section :=
  [generalDetailsSection rfq]
  ++ (if jsTruthy rfq.scopeOfWork then [scopeOfWorkSection rfq] else [])
  ++ (match rfq.questionnaire with
      | some qs => [questionnaireSection qs]
      | none => [])
  ++ (match rfq.items with
      | some its => [commercialSection its]
      | none => [])
  ++ [quoteSummarySection]

/-- Projection of an RFQ into supplier-visible SQR sections: the template
branch when a processed template structure with sections exists, otherwise
the fixed ad hoc layout. -/
def processRFQSections (rfq : RFQ) : List Section :=
  match (rfq.template.bind Template.processedStructure).bind Structure.sections with
  | some secs => processTemplateSections secs
  | none => adHocSections rfq

/-- Visibility checker for a projected field. -/
def fieldVisibleB (f : Field) : Bool := f.visibleToSupplier == .bool true

/-- Visibility checker for a projected column. -/
def columnVisibleB (c : Column) : Bool := c.visibleToSupplier == .bool true

/-- Visibility checker for a projected table and all its columns. -/
def tableVisibleB (t : Table) : Bool :=
  t.visibleToSupplier == .bool true && t.columns.all columnVisibleB

/-- Visibility checker for a projected subsection and all its descendants. -/
def subsectionVisibleB (s : Subsection) : Bool :=
  s.visibleToSupplier == .bool true
    && (s.fields.getD []).all fieldVisibleB
    && (s.tables.getD []).all tableVisibleB

/-- Visibility checker for a projected section and all its descendants. -/
def sectionVisibleB (s : Section) : Bool :=
  s.visibleToSupplier == .bool true
    && (s.fields.getD []).all fieldVisibleB
    && (s.subsections.getD []).all subsectionVisibleB
    && (s.tables.getD []).all tableVisibleB

end SqrModel

/-! ## Worksheet model

A cell carries the raw value (`cell.value`), the fill, and whether the font
is bold; rows are dense cell lists (1-based access via `cellAt`), a
workbook is a name-keyed list of worksheets. -/

/-- A cell fill as the source reads and writes it. -/
structure Fill where
  type : String
  pattern : String
  fgColor : Option String := none
deriving DecidableEq, Repr

structure Cell where
  value : JSVal := .undef
  fill : Option Fill := none
  fontBold : Bool := false
deriving DecidableEq, Repr

abbrev SheetRow := List Cell

abbrev Worksheet := List SheetRow

abbrev Workbook := List (String × Worksheet)

/-- The 1-based `row.getCell(i)`; a missing cell reads as an empty cell. -/
def cellAt (r : SheetRow) (i : Nat) : Cell := (r.get? (i - 1)).getD {}

/-- The 1-based `worksheet.getRow(i)`; a missing row reads as empty. -/
def getRowL (ws : Worksheet) (i : Nat) : SheetRow := (ws.get? (i - 1)).getD []

/-- Lookup of a worksheet by exact name, `workbook.getWorksheet(name)`. -/
def getWorksheet (wb : Workbook) (name : String) : Option Worksheet :=
  (wb.find? (fun p => p.1 == name)).map (fun p => p.2)

/-- The `cell.text.trim()` read used throughout the parsers. -/
def textTrim (c : Cell) : String := strTrim (jsToText c.value)

/-- The raw values of a row, as collected by `row.eachCell` into
`rowValues`. -/
def rowValues (r : SheetRow) : List JSVal := r.map (fun c => c.value)

/-- Emptiness by raw value (`ExcelService.isEmptyRow`): no cell value other
than `null`, `undefined` or the empty string. -/
def isEmptyValueRow (r : SheetRow) : Bool :=
  r.all (fun c => c.value == .undef || c.value == .jnull || c.value == .str "")

/-- Emptiness by rendered text, used by the end-of-table scans. -/
def isEmptyTextRow (r : SheetRow) : Bool := r.all (fun c => textTrim c == "")

/-- Generic JS object property write on an association list. -/
def setAssoc [BEq κ] : List (κ × α) → κ → α → List (κ × α)
  | [], k, v => [(k, v)]
  | (k0, v0) :: rest, k, v =>
    if k0 == k then (k0, v) :: rest else (k0, v0) :: setAssoc rest k v

/-- The 1-based row number of the LAST worksheet row whose first cell text,
trimmed, equals `title` (an `eachRow` scan that overwrites its match
variable on every hit). -/
def findLastTitleRow (ws : Worksheet) (title : String) : Option Nat :=
  ws.enum.foldl (fun acc p => if textTrim (cellAt p.2 1) == title then some (p.1 + 1) else acc) none

/-- The non-editable backfill pass shared by both table reconcilers: for
every column not flagged editable, write the value of the original row `o`
at the column accessor into `r`. -/
def copyNonEditable (cols : List Column) (o : Row) (r : Row) : Row :=
  cols.foldl (fun r c =>
    if !(jsTruthy c.editableBySupplier) then setKey r c.accessorKey (getKey o c.accessorKey)
    else r) r

/-- The editable-extraction pass shared by both table reconcilers: for
every column flagged editable whose header appears (case-insensitively) in
the parsed header row, write the trimmed text of the sheet cell under that
header into `r`. -/
def applyEditableFromSheet (cols : List Column) (headers : List String) (row : SheetRow) (r : Row) : Row :=
  cols.foldl (fun r c =>
    if jsTruthy c.editableBySupplier then
      match headers.findIdx? (fun h => strLower h == strLower c.header) with
      | some hi => setKey r c.accessorKey (.str (textTrim (cellAt row (hi + 1))))
      | none => r
    else r) r

/-! ## ExcelService (excel.service.ts)

Workbook generation side: only the editable-cell fill convention and the
per-field row emission are embedded (styling, borders, protection flags and
file IO are presentation-only).  Parsing side: the complete
`extractDataFromExcelBuffer` pipeline. -/

namespace ExcelService

/-- The fill applied at serialization to every supplier-editable cell. -/
def editableFill : Fill := { type := "pattern", pattern := "solid", fgColor := some "FFFFD700" }

/-- The per-cell trust check of the parser: a solid pattern fill with
foreground color FFFFD700. -/
def isEditableFill : Option Fill → Bool
  | none => false
  | some fl => fl.type == "pattern" && fl.pattern == "solid" && fl.fgColor == some "FFFFD700"

/-- The label/value cell pair emitted for one field by
`generateSheetsFromTemplate`; the value cell carries the editable fill
exactly when the field is flagged editable. -/
def serializeFieldRow (f : Field) : Cell × Cell :=
  let label := if f.label != "" then f.label else f.name
  let v := jsOr f.value (jsOr f.defaultValue (.str ""))
  ({ value := .str label },
   if f.editableBySupplier == .bool true then { value := v, fill := some editableFill }
   else { value := v })

/-- The `formatCellValue` coercion: null and undefined become the empty
string, everything else its string rendering (formula and rich-text cell
objects do not occur among the modelled primitive values). -/
def formatCellValue : JSVal → JSVal
  | .undef => .str ""
  | .jnull => .str ""
  | .bool b => .str (cond b "true" "false")
  | .num q => .str (ratToString q)
  | .str s => .str s

/-- One field of the upload-side `processFields` scan: skip fields whose
visibility or editability is literally `false`; otherwise scan every row,
and on each row whose first cell equals the label accept the adjacent cell
value only when that cell carries the editable fill. -/
def parseFieldScan (ws : Worksheet) (f : Field) : Field :=
  if isFalseLit f.visibleToSupplier || isFalseLit f.editableBySupplier then f
  else
    let lbl := f.label
    ws.foldl (fun g row =>
      if (cellAt row 1).value == .str lbl && isEditableFill (cellAt row 2).fill then
        { g with value := formatCellValue (cellAt row 2).value }
      else g) f

/-- Upload-side `processFields`. -/
def processFields (fields : List Field) (ws : Worksheet) : List Field :=
  fields.map (parseFieldScan ws)

/-- Value accepted for a label by the field scan: the value cell of the
last row whose first cell equals the label and whose value cell carries the
editable fill. -/
def acceptedValue (ws : Worksheet) (lbl : String) : Option JSVal :=
  ws.foldl (fun acc row =>
    if (cellAt row 1).value == .str lbl && isEditableFill (cellAt row 2).fill then
      some (cellAt row 2).value
    else acc) none

/-- End-of-table test of `extractSubsectionTableData`: blank row, or a
first cell that ends a section (trailing colon) or starts a new section
marker. -/
def isStopRow7 (r : SheetRow) : Bool :=
  isEmptyTextRow r || strEndsWith (textTrim (cellAt r 1)) ":"
    || strStartsWith (textTrim (cellAt r 1)) "Section:"

/-- Number of sheet rows belonging to a subsection table whose first data
row is row `start`: rows up to (excluding) the first stop row, or through
the end of the sheet. -/
def dataRowCount7 (ws : Worksheet) (start : Nat) : Nat :=
  match (ws.drop (start - 1)).findIdx? isStopRow7 with
  | some j => j
  | none => (ws.drop (start - 1)).length

/-- One reconciled row of `extractSubsectionTableData`: start from a copy
of the original row (empty when there is none), re-copy every non-editable
column from the original, then overwrite editable columns from the sheet. -/
def reconcileSubsectionRow (t : Table) (headers : List String) (row : SheetRow) (orig : Option Row) : Row :=
  let r0 := match orig with
    | some o => copyNonEditable t.columns o o
    | none => []
  applyEditableFromSheet t.columns headers row r0

/-- Extraction of a subsection table: locate the (last) row carrying the
subsection title, read the header row two rows below it, then reconcile
each following data row against the original row at the same positional
index. -/
def extractSubsectionTableData (t : Table) (ws : Worksheet) (subsectionTitle : String) : List Row :=
  match findLastTitleRow ws subsectionTitle with
  | none => []
  | some tableRowIndex =>
    let headerRowIndex := tableRowIndex + 2
    if headerRowIndex ≤ ws.length then
      let headers := (getRowL ws headerRowIndex).map textTrim
      let start := headerRowIndex + 1
      (List.range (dataRowCount7 ws start)).filterMap (fun i =>
        let row := getRowL ws (start + i)
        if isEmptyTextRow row then none
        else some (reconcileSubsectionRow t headers row ((t.data.getD []).get? i)))
    else []

/-- Header-row test of the top-level table scan: some column header or
accessor key occurs verbatim among the row values. -/
def headerMatchRow (cols : List Column) (r : SheetRow) : Bool :=
  cols.any (fun c => (rowValues r).contains (.str c.header) || (rowValues r).contains (.str c.accessorKey))

/-- Positions of the editable columns in a parsed header row, keyed by
`column.id || column.accessorKey`. -/
def buildEditableColumns (cols : List Column) (headerVals : List JSVal) : List (String × Nat) :=
  headerVals.enum.foldl (fun m p =>
    match cols.find? (fun c => .str c.header == p.2 || .str c.accessorKey == p.2) with
    | some c =>
      if c.editableBySupplier == .bool true then
        setAssoc m (if c.id != "" then c.id else c.accessorKey) p.1
      else m
    | none => m) []

/-- Writes the mapped editable cells of one sheet row into a data row. -/
def applyEditsRow (em : List (String × Nat)) (vals : List JSVal) (r : Row) : Row :=
  em.foldl (fun r p =>
    if p.2 < vals.length then setKey r p.1 (formatCellValue ((vals.get? p.2).getD .undef))
    else r) r

/-- Top-level table extraction of the upload-side `processTables`: find the
first row matching the table columns, map editable columns through the
header, then update the first original data rows positionally from the
following non-blank sheet rows. -/
def processTopLevelTable (t : Table) (ws : Worksheet) : Table :=
  match ws.findIdx? (headerMatchRow t.columns) with
  | none => t
  | some hIdx =>
    let headerVals := rowValues (getRowL ws (hIdx + 1))
    let em := buildEditableColumns t.columns headerVals
    match t.data with
    | none => t
    | some d =>
      let dataRows := ((ws.drop (hIdx + 1)).filter (fun r => !isEmptyValueRow r)).map rowValues
      { t with data := some (d.mapIdx (fun i row =>
          match dataRows.get? i with
          | some vals => applyEditsRow em vals row
          | none => row)) }

/-- Upload-side `processTables`: skip untitled or invisible tables; tables
inside a subsection go through `extractSubsectionTableData`, top-level
tables through the header scan. -/
def processTables (tables : List Table) (ws : Worksheet) (parentTitle : Option String) : List Table :=
  tables.map (fun t =>
    if t.title == "" then t
    else if isFalseLit t.visibleToSupplier then t
    else match parentTitle with
      | some pt => { t with data := some (extractSubsectionTableData t ws pt) }
      | none => processTopLevelTable t ws)

/-- The scan of the Supplier sheet for the value adjacent to the
`Verification UUID` label (last match wins; `null` when absent). -/
def readUUIDFromSheet (ws : Worksheet) : JSVal :=
  ws.foldl (fun acc row =>
    if (cellAt row 1).value == .str "Verification UUID" then (cellAt row 2).value else acc) .jnull

/-- The verification UUID carried by a workbook, `null` when the Supplier
sheet is missing. -/
def readUUID (wb : Workbook) : JSVal :=
  match getWorksheet wb "Supplier" with
  | none => .jnull
  | some ws => readUUIDFromSheet ws

/-- Token stored for a supplier on the RFQ. -/
def storedToken (rfq : RFQ) (supplierId : String) : Option String :=
  (rfq.suppliers.find? (fun s => s.id == supplierId)).bind Supplier.excelUUID

/-- The `verifySupplierUUID` check: read the uploaded UUID from the
Supplier sheet, reject falsy values, then compare it against the token
stored for this supplier on the RFQ (the database fetch of the RFQ is
modelled by the `rfq` argument). -/
def verifySupplierUUID (wb : Workbook) (rfq : RFQ) (supplierId : String) : Bool :=
  match getWorksheet wb "Supplier" with
  | none => false
  | some ws =>
    let uploadedUUID := readUUIDFromSheet ws
    if !(jsTruthy uploadedUUID) then false
    else
      match rfq.suppliers.find? (fun s => s.id == supplierId) with
      | none => false
      | some sup =>
        match sup.excelUUID with
        | none => false
        | some stored =>
          if stored == "" then false
          else uploadedUUID == .str stored

/-- The `storeSupplierUUID` update: overwrite the stored token of the
matching supplier (the generation timestamp it also records is not
modelled); no supplier matching leaves the RFQ unchanged. -/
def storeSupplierUUID (rfq : RFQ) (supplierId : String) (uuid : String) : RFQ :=
  let sups := updateFirst (fun s => s.id == supplierId)
    (fun s => { s with excelUUID := some uuid }) rfq.suppliers
  { rfq with suppliers := sups }

/-- Per-section step of the extraction loop of
`extractDataFromExcelBuffer`: invisible sections are skipped; a section
whose title has no worksheet is skipped (left unchanged); otherwise its
fields, top-level tables, and visible subsections are reconciled from the
worksheet. -/
def extractSection (wb : Workbook) (s : Section) : Section :=
  if isFalseLit s.visibleToSupplier then s
  else match getWorksheet wb s.title with
  | none => s
  | some ws =>
    let s1 := match s.fields with
      | some fs => { s with fields := some (processFields fs ws) }
      | none => s
    let s2 := match s1.tables with
      | some ts => { s1 with tables := some (processTables ts ws none) }
      | none => s1
    match s2.subsections with
    | none => s2
    | some subs => { s2 with subsections := some (subs.map (fun sub =>
        if isFalseLit sub.visibleToSupplier then sub
        else
          let sub1 := match sub.fields with
            | some fs => { sub with fields := some (processFields fs ws) }
            | none => sub
          match sub1.tables with
          | some ts => { sub1 with tables := some (processTables ts ws (some sub.title)) }
          | none => sub1)) }

/-- The extraction loop of `extractDataFromExcelBuffer` over all sections
of the processed structure. -/
def extractSections (wb : Workbook) (sections : List Section) : List Section :=
  sections.map (extractSection wb)

/-- JS `title.toLowerCase().replace(/\s+/g, "")`. -/
def normalizeTitle (s : String) : String :=
  String.mk ((strLower s).data.filter (fun c => !c.isWhitespace))

/-- Writes a questionnaire response (and remarks, when truthy) into a
question row. -/
def setQuestionResponse (resp rem : JSVal) (row : Row) : Row :=
  let row1 := setKey row "value" (formatCellValue resp)
  let row2 := setKey row1 "response" (formatCellValue resp)
  if jsTruthy rem then setKey row2 "remarks" (formatCellValue rem) else row2

/-- Merges one questionnaire sheet row into the matching question record
of the questionnaire section (matched by subsection title and exact
question text). -/
def applyQuestionRow (secs : List Section) (title : String) (q resp rem : JSVal) : List Section :=
  updateFirst (fun s => s.id == "questionnaire") (fun s =>
    match s.subsections with
    | none => s
    | some subs =>
      let subs1 := updateFirst
        (fun sub => sub.title == title || sub.id == normalizeTitle title)
        (fun sub =>
          match sub.tables with
          | some (t :: ts) =>
            (match t.data with
             | some d =>
               let d1 := updateFirst (fun row => getKey row "question" == q)
                 (setQuestionResponse resp rem) d
               { sub with tables := some ({ t with data := some d1 } :: ts) }
             | none => sub)
          | _ => sub) subs
      { s with subsections := some subs1 }) secs

/-- The `processQuestionnaire` pass: walk the Questionnaire sheet, track
the current bold section title, and merge each question/response row into
the questionnaire section. -/
def processQuestionnaire (ps : Structure) (wb : Workbook) : Structure :=
  if !(jsTruthy ps.questionnaire) then ps
  else match getWorksheet wb "Questionnaire" with
  | none => ps
  | some ws =>
    let res := ws.foldl (fun (st : List Section × Bool × String) row =>
      let v0 := (cellAt row 1).value
      if jsTruthy v0 && isStr v0 && (cellAt row 1).fontBold then
        (st.1, true, jsPropKey v0)
      else if st.2.1 && jsTruthy v0 && jsTruthy (cellAt row 2).value then
        (applyQuestionRow st.1 st.2.2 v0 (cellAt row 2).value (cellAt row 3).value, st.2.1, st.2.2)
      else st)
      (ps.sections.getD [], false, "")
    { ps with sections := some res.1 }

/-- The authenticity failure message of `extractDataFromExcelBuffer`. -/
def authenticityErrorMsg : String :=
  "Invalid or mismatched verification UUID. This Excel file may have been tampered with or is not the original file sent to this supplier."

/-- The missing-structure failure message of `extractDataFromExcelBuffer`. -/
def noStructureMsg : String := "No processed structure found in the RFQ document"

/-- The `extractDataFromExcelBuffer` reconciliation: verify the embedded
token first and fail the whole operation on mismatch; require a processed
template structure; then reconcile every visible section from its
worksheet, merge the questionnaire sheet, and attach extraction metadata
(the `submittedAt` date is not modelled).  Thrown errors are modelled by
`Except.error`. -/
def extractDataFromExcelBuffer (wb : Workbook) (rfq : RFQ) (supplierId : String) : Except String Structure :=
  if !(verifySupplierUUID wb rfq supplierId) then .error authenticityErrorMsg
  else
    match rfq.template.bind Template.processedStructure with
    | none => .error noStructureMsg
    | some ps =>
      let ps1 :=
        match ps.sections with
        | some secs => processQuestionnaire { ps with sections := some (extractSections wb secs) } wb
        | none => ps
      .ok { ps1 with metadata := some { rfqId := rfq.id, supplierId := supplierId } }

end ExcelService

/-! ## ExcelImportService (excel-import.service.ts)

Upload import against a stored SQR section tree: the label/value field
scan, and the table extraction that merges editable columns from the sheet
and backfills non-editable columns from the original data at the same
positional index. -/

namespace ExcelImportService

/-- Number of data rows of a table whose header row is row `start`: rows
after the header up to (excluding) the first blank row, or through the end
of the sheet. -/
def dataRowCount8 (ws : Worksheet) (start : Nat) : Nat :=
  match (ws.drop start).findIdx? isEmptyTextRow with
  | some j => j
  | none => ws.length - start

/-- One reconciled table row: editable columns are read from the sheet via
the header mapping, then every non-editable column is copied from the
original row (overwriting anything the sheet said for it). -/
def reconcileRow (t : Table) (headers : List String) (row : SheetRow) (orig : Option Row) : Row :=
  let r1 := applyEditableFromSheet t.columns headers row []
  match orig with
  | some o => copyNonEditable t.columns o r1
  | none => r1

/-- Table extraction of `extractDataFromWorksheet` (used identically for
section-level and subsection-level tables): locate the (last) row carrying
the table title, read the header row two rows below it, and reconcile each
following data row against the original row at the same positional index;
`none` when the title is not found (the table is then left unchanged). -/
def extractTableData (t : Table) (ws : Worksheet) : Option (List Row) :=
  match findLastTitleRow ws t.title with
  | none => none
  | some titleRow =>
    let tableStartRow := titleRow + 2
    let headers := (getRowL ws tableStartRow).map textTrim
    some ((List.range (dataRowCount8 ws tableStartRow)).map (fun i =>
      reconcileRow t headers (getRowL ws (tableStartRow + 1 + i)) ((t.data.getD []).get? i)))

/-- Field scan of `extractDataFromWorksheet`: for every field flagged
editable (truthy), every sheet row whose first cell text equals the field
label writes the trimmed text of the adjacent cell into the field matched
by id. -/
def fieldsPass (fields : List Field) (ws : Worksheet) : List Field :=
  fields.foldl (fun acc field =>
    if jsTruthy field.editableBySupplier then
      ws.foldl (fun acc2 row =>
        if textTrim (cellAt row 1) == field.label then
          updateFirst (fun f => f.id == field.id)
            (fun f => { f with value := .str (textTrim (cellAt row 2)) }) acc2
        else acc2) acc
    else acc) fields

/-- Applies a table extraction result, leaving the table unchanged when
its title was not found. -/
def tablePass (t : Table) (ws : Worksheet) : Table :=
  match extractTableData t ws with
  | some d => { t with data := some d }
  | none => t

/-- The `extractDataFromWorksheet` reconciliation of one section from its
worksheet: field scan, subsection field scans and tables, and
section-level tables. -/
def extractDataFromWorksheet (ws : Worksheet) (s : Section) : Section :=
  { s with
    fields := some (fieldsPass (s.fields.getD []) ws)
    subsections := some ((s.subsections.getD []).map (fun sub =>
      { sub with
        fields := some (fieldsPass (sub.fields.getD []) ws)
        tables := some ((sub.tables.getD []).map (fun t => tablePass t ws)) }))
    tables := some ((s.tables.getD []).map (fun t => tablePass t ws)) }

end ExcelImportService

/-! ## Response aggregation (rfq.utils.ts)

`getLowestQuotedValueForEachItem` over reconciled supplier quote
documents. -/

namespace RfqUtils

/-- First commercial table of a supplier quote document. -/
structure QTable where
  data : List Row
deriving DecidableEq, Repr

structure QTablesWrap where
  tables : List QTable
deriving DecidableEq, Repr

structure QSubsection where
  id : String := ""
  tables : List QTable := []
deriving DecidableEq, Repr

structure QuoteQuestionnaire where
  subsections : List QSubsection := []
deriving DecidableEq, Repr

/-- A reconciled supplier quote document, restricted to the keys the
aggregation reads. -/
structure SupplierQuote where
  supplierId : String
  commercialTable : Option QTablesWrap := none
  commercialTermsTable : Option QTablesWrap := none
  questionnaire : QuoteQuestionnaire := {}
deriving DecidableEq, Repr

/-- A record pushed into an item group: raw id, `Number(unit-price)`
(`none` models `NaN`), and the producing supplier. -/
structure QRec where
  id : JSVal
  baseLine : Option JNum
  supplierId : String
deriving DecidableEq, Repr

/-- Group push `itemsById[k].push r`, creating the group when absent. -/
def pushGroup (gs : List (String × List QRec)) (k : String) (r : QRec) : List (String × List QRec) :=
  if gs.any (fun g => g.1 == k) then gs.map (fun g => if g.1 == k then (g.1, g.2 ++ [r]) else g)
  else gs ++ [(k, [r])]

/-- Group creation `if (!itemsById[k]) itemsById[k] = []`. -/
def ensureGroup (gs : List (String × List QRec)) (k : String) : List (String × List QRec) :=
  if gs.any (fun g => g.1 == k) then gs else gs ++ [(k, [])]

/-- Rows of the first commercial table of a quote. -/
def commercialRows (q : SupplierQuote) : List Row :=
  match q.commercialTable.bind (fun w => w.tables.head?) with
  | some tb => tb.data
  | none => []

/-- The filter applied to a unit price before a record is pushed:
`undefined`, `null` and the empty string are skipped. -/
def priceMissing (v : JSVal) : Bool := v == .undef || v == .jnull || v == .str ""

/-- Per-quote step of the grouping pass: push one record per commercial
row with a non-missing unit price, then make sure a (possibly empty) group
exists for every commercial term and questionnaire question id. -/
def quoteItemsStep (gs : List (String × List QRec)) (q : SupplierQuote) : List (String × List QRec) :=
  let gs1 := (commercialRows q).foldl (fun gs row =>
    let up := getKey row "unit-price"
    if priceMissing up then gs
    else pushGroup gs (jsPropKey (getKey row "id"))
      { id := getKey row "id", baseLine := jsToNumber up, supplierId := q.supplierId }) gs
  let gs2 := (match q.commercialTermsTable.bind (fun w => w.tables.head?) with
    | some tb => tb.data.foldl (fun gs row => ensureGroup gs (jsPropKey (getKey row "id"))) gs1
    | none => gs1)
  q.questionnaire.subsections.foldl (fun gs sub =>
    match sub.tables.head? with
    | some tb => tb.data.foldl (fun gs row => ensureGroup gs (jsPropKey (getKey row "id"))) gs
    | none => gs) gs2

/-- The `itemsById` grouping across all supplier quotes. -/
def buildItemsById (quotes : List SupplierQuote) : List (String × List QRec) :=
  quotes.foldl quoteItemsStep []

/-- The per-group reduce `items.reduce((lowest, current) => current.baseLine
< lowest.baseLine ? current : lowest, items[0])`; `none` models the
`undefined` a reduce over an empty group yields. -/
def reduceLowest (items : List QRec) : Option QRec :=
  match items with
  | [] => none
  | r0 :: _ => some (items.foldl (fun lowest cur =>
      if jsNumLt cur.baseLine lowest.baseLine then cur else lowest) r0)

/-- The items component of `getLowestQuotedValueForEachItem`. -/
def lowestQuotedItems (quotes : List SupplierQuote) : List (Option QRec) :=
  (buildItemsById quotes).map (fun g => reduceLowest g.2)

/-- A commercial-term or questionnaire baseline record. -/
structure TermRec where
  id : JSVal
  baseLine : JSVal
  supplierId : String
deriving DecidableEq, Repr

structure QuestRec where
  id : String
  questions : Option (List TermRec)
deriving DecidableEq, Repr

/-- Result record of `getLowestQuotedValueForEachItem`. -/
structure LowestQuotes where
  items : List (Option QRec)
  commercialTerms : Option (List TermRec)
  questionnaires : List (String × QuestRec)
deriving DecidableEq, Repr

/-- The full `getLowestQuotedValueForEachItem`: the item minimum per group,
plus commercial-term and questionnaire baselines taken from the FIRST
supplier quote only; `none` models the crash on an empty quote list. -/
def getLowestQuotedValueForEachItem (quotes : List SupplierQuote) : Option LowestQuotes :=
  match quotes with
  | [] => none
  | q0 :: _ =>
    let terms := (q0.commercialTermsTable.bind (fun w => w.tables.head?)).map (fun tb =>
      tb.data.map (fun term =>
        ({ id := getKey term "id", baseLine := getKey term "user-response",
           supplierId := q0.supplierId } : TermRec)))
    let quests := q0.questionnaire.subsections.foldl (fun acc sub =>
      setAssoc acc sub.id
        ({ id := sub.id,
           questions := (sub.tables.head?).map (fun tb => tb.data.map (fun qrow =>
             ({ id := getKey qrow "id", baseLine := getKey qrow "response",
                supplierId := q0.supplierId } : TermRec))) } : QuestRec)) []
    some { items := lowestQuotedItems quotes, commercialTerms := terms, questionnaires := quests }

/-- Modelled from the claim wording, for comparison with the code: group
commercial rows by id, EXCLUDE records whose price field is missing or
non-numeric, and select per group the record with the numerically smallest
price, tagged with its supplier. -/
def lowestQuotedItemsSpec (quotes : List SupplierQuote) : List (Option QRec) :=
  let gs := quotes.foldl (fun gs q =>
    (commercialRows q).foldl (fun gs row =>
      let up := getKey row "unit-price"
      if priceMissing up || (jsToNumber up).isNone then gs
      else pushGroup gs (jsPropKey (getKey row "id"))
        { id := getKey row "id", baseLine := jsToNumber up, supplierId := q.supplierId }) gs) []
  gs.map (fun g => reduceLowest g.2)

/-- A record whose baseline is an actual number (not `NaN`) with a
positive denominator — what `Number` produces on any numeric price. -/
def numericBaseLine (r : QRec) : Prop := ∃ n d, r.baseLine = some (n, d) ∧ 0 < d

/-- Numeric comparison of two record baselines by cross multiplication:
whenever both are numbers, the first is at most the second. -/
def baseLineLe (a b : QRec) : Prop :=
  ∀ n d n2 d2, a.baseLine = some (n, d) → b.baseLine = some (n2, d2) →
    n * (d2 : Int) ≤ n2 * (d : Int)

/-- Provenance of a pushed record: it was built from a commercial row of
one of the quotes whose unit price is not missing (not undefined, null or
the empty string). -/
def RecFrom (quotes : List SupplierQuote) (r : QRec) : Prop :=
  ∃ q, q ∈ quotes ∧ ∃ row, row ∈ commercialRows q ∧
    priceMissing (getKey row "unit-price") = false ∧
    r = { id := getKey row "id", baseLine := jsToNumber (getKey row "unit-price"),
          supplierId := q.supplierId }

/-- Every record of every group has the `RecFrom` provenance. -/
def InvGroups (quotes : List SupplierQuote) (gs : List (String × List QRec)) : Prop :=
  ∀ g ∈ gs, ∀ r ∈ g.2, RecFrom quotes r

end RfqUtils

/-! ## Concrete instances

Inputs used by the witness and counterexample theorems. -/

namespace Instances

/-- RFQ with a stored token `tok-B` for supplier 7 and an empty processed
structure. -/
def rfqC1 : RFQ :=
  { id := "rfq-1"
    suppliers := [{ id := "7", excelUUID := some "tok-B" }]
    template := some { processedStructure := some { sections := some [] } } }

/-- Workbook whose Supplier sheet carries the stale token `tok-A`. -/
def wbC1 : Workbook :=
  [("Supplier", [[{ value := .str "Verification UUID" }, { value := .str "tok-A" }]])]

/-- Columns of the full-cycle scenario table: a non-editable description
and an editable unit price. -/
def descCol : Column :=
  { id := "description", header := "Description", accessorKey := "description",
    editableBySupplier := .bool false }

def priceCol : Column :=
  { id := "unitPrice", header := "Unit Price", accessorKey := "unitPrice",
    editableBySupplier := .bool true }

/-- Original row of the scenario table. -/
def origRowC2 : Row := [("id", .str "1"), ("description", .str "Widget"), ("unitPrice", .str "")]

def tableC2 : Table :=
  { id := "items", title := "Items", columns := [descCol, priceCol], data := some [origRowC2] }

/-- Uploaded worksheet for the scenario: title row, gap, header row, and a
data row in which the supplier entered 9.99 and overwrote the description
with Hacked. -/
def wsC2 : Worksheet :=
  [[{ value := .str "Items" }],
   [],
   [{ value := .str "Description" }, { value := .str "Unit Price" }],
   [{ value := .str "Hacked" }, { value := .str "9.99" }]]

/-- The row the section-level reconciler produces for the scenario. -/
def outRowC2 : Row := [("unitPrice", .str "9.99"), ("description", .str "Widget")]

/-- A section marked invisible to the supplier. -/
def hiddenSection : Section :=
  { id := "internal", title := "Internal Notes", visibleToSupplier := .bool false,
    fields := some [{ id := "n", label := "Note", visibleToSupplier := .bool true }] }

/-- A hidden field, table, column and subsection. -/
def hiddenField : Field := { id := "hf", label := "Hidden", visibleToSupplier := .bool false }

def hiddenSubsection : Subsection :=
  { id := "hs", title := "Hidden Sub", visibleToSupplier := .bool false }

def hiddenTable : Table :=
  { id := "ht", title := "Hidden Table", columns := [], visibleToSupplier := .bool false }

def hiddenColumn : Column :=
  { id := "hc", header := "Hidden Col", accessorKey := "hc", visibleToSupplier := .bool false }

def plainTable : Table := { id := "t", title := "T", columns := [] }

/-- RFQ for the token-overwrite scenario: supplier 77, no token yet. -/
def rfqC4 : RFQ := { id := "rfq-4", suppliers := [{ id := "77" }] }

/-- Workbook generated first, carrying token `tok-1`. -/
def wbC4 : Workbook :=
  [("Supplier", [[{ value := .str "Verification UUID" }, { value := .str "tok-1" }]])]

/-- An editable field of the field-scan scenario. -/
def fieldC5 : Field :=
  { id := "qty", label := "Quantity", value := .str "old",
    visibleToSupplier := .bool true, editableBySupplier := .bool true }

/-- Worksheet whose Quantity value cell carries the editable fill. -/
def wsC5 : Worksheet :=
  [[{ value := .str "Quantity" },
    { value := .str "42", fill := some ExcelService.editableFill }]]

/-- Worksheet whose Quantity value cell has no fill. -/
def wsC5bad : Worksheet :=
  [[{ value := .str "Quantity" }, { value := .str "42" }]]

/-- An editable field of the missing-sheet scenario section. -/
def fieldC7 : Field :=
  { id := "f1", label := "Detail", value := .str "orig",
    visibleToSupplier := .bool true, editableBySupplier := .bool true }

/-- A visible section whose title has no worksheet in an empty workbook. -/
def sectionC7 : Section :=
  { id := "sow", title := "Scope of Work", visibleToSupplier := .bool true,
    fields := some [fieldC7] }

/-- Supplier quote offering a non-numeric price for item 1. -/
def quoteA : RfqUtils.SupplierQuote :=
  { supplierId := "A"
    commercialTable := some ⟨[⟨[[("id", .str "1"), ("unit-price", .str "abc")]]⟩]⟩ }

/-- Supplier quote offering 9.50 for item 1. -/
def quoteB : RfqUtils.SupplierQuote :=
  { supplierId := "B"
    commercialTable := some ⟨[⟨[[("id", .str "1"), ("unit-price", .str "9.50")]]⟩]⟩ }

/-- Supplier quote offering 12.00 for item 1. -/
def quoteC : RfqUtils.SupplierQuote :=
  { supplierId := "C"
    commercialTable := some ⟨[⟨[[("id", .str "1"), ("unit-price", .str "12.00")]]⟩]⟩ }

/-- Supplier quote with a blank price for item 1. -/
def quoteD : RfqUtils.SupplierQuote :=
  { supplierId := "D"
    commercialTable := some ⟨[⟨[[("id", .str "1"), ("unit-price", .str "")]]⟩]⟩ }

/-- Group records of the lowest-offer witness scenario. -/
def recsC8 : List RfqUtils.QRec :=
  [{ id := .str "1", baseLine := some (12, 1), supplierId := "C" },
   { id := .str "1", baseLine := some (19, 2), supplierId := "B" }]

/-- The 9.50 record of the lowest-offer witness scenario. -/
def recLowC8 : RfqUtils.QRec :=
  { id := .str "1", baseLine := some (19, 2), supplierId := "B" }

/-- The 12.00 record of the lowest-offer witness scenario. -/
def recHighC8 : RfqUtils.QRec :=
  { id := .str "1", baseLine := some (12, 1), supplierId := "C" }

/-- Field whose `defaultValue` is the falsy-but-present number 0. -/
def fieldC9 : Field :=
  { id := "f", label := "F", defaultValue := .num 0, value := .str "5",
    visibleToSupplier := .bool true }

/-- RFQ with a matching stored token but no template. -/
def rfqC10 : RFQ :=
  { id := "rfq-10", suppliers := [{ id := "7", excelUUID := some "tok" }], template := none }

/-- Workbook carrying the matching token `tok`. -/
def wbC10 : Workbook :=
  [("Supplier", [[{ value := .str "Verification UUID" }, { value := .str "tok" }]])]

end Instances

/-! ## Helper lemmas -/

theorem jsOr_undef_left (x : JSVal) : jsOr .undef x = x := rfl

theorem jsOr_false_idem (v : JSVal) : jsOr (jsOr v (.bool false)) (.bool false) = jsOr v (.bool false) := by
  by_cases h : jsTruthy v
  · simp [jsOr, h]
  · have hz : jsOr v (.bool false) = .bool false := by simp [jsOr, h]
    rw [hz]
    rfl

theorem jsOr_empty_idem (d v : JSVal) :
    jsOr (jsOr d (jsOr v (.str ""))) (.str "") = jsOr d (jsOr v (.str "")) := by
  by_cases hd : jsTruthy d
  · simp [jsOr, hd]
  · by_cases hv : jsTruthy v
    · simp [jsOr, hd, hv]
    · have hz : jsOr d (jsOr v (.str "")) = .str "" := by simp [jsOr, hd, hv]
      rw [hz]
      rfl

theorem all_map_of {α β} {f : α → β} {p : β → Bool} {l : List α}
    (h : ∀ a ∈ l, p (f a) = true) : (l.map f).all p = true := by
  rw [List.all_eq_true]
  intro x hx
  obtain ⟨a, ha, rfl⟩ := List.mem_map.mp hx
  exact h a ha

namespace SqrModel

theorem projectField_idem (f : Field) : projectField (projectField f) = projectField f := by
  simp [projectField, jsOr_undef_left, jsOr_empty_idem, jsOr_false_idem]

theorem projectColumn_idem (c : Column) : projectColumn (projectColumn c) = projectColumn c := by
  simp [projectColumn, jsOr_false_idem]

theorem processFields_idem (fs : List Field) :
    processFields (processFields fs) = processFields fs := by
  unfold processFields
  have hfix : ∀ a ∈ (fs.filter (fun f => !isFalseLit f.visibleToSupplier)).map projectField,
      (!isFalseLit a.visibleToSupplier) = true := by
    intro a ha
    obtain ⟨b, -, rfl⟩ := List.mem_map.mp ha
    rfl
  rw [List.filter_eq_self.mpr hfix, List.map_map]
  exact List.map_congr_left (fun a _ => projectField_idem a)

theorem projectColumns_idem (cols : List Column) :
    (((cols.filter (fun c => !isFalseLit c.visibleToSupplier)).map projectColumn).filter
        (fun c => !isFalseLit c.visibleToSupplier)).map projectColumn
      = (cols.filter (fun c => !isFalseLit c.visibleToSupplier)).map projectColumn := by
  have hfix : ∀ a ∈ (cols.filter (fun c => !isFalseLit c.visibleToSupplier)).map projectColumn,
      (!isFalseLit a.visibleToSupplier) = true := by
    intro a ha
    obtain ⟨b, -, rfl⟩ := List.mem_map.mp ha
    rfl
  rw [List.filter_eq_self.mpr hfix, List.map_map]
  exact List.map_congr_left (fun a _ => projectColumn_idem a)

theorem projectTable_idem (t : Table) : projectTable (projectTable t) = projectTable t := by
  simp [projectTable, projectColumns_idem, jsOr_false_idem]

theorem processTables_idem (ts : List Table) :
    processTables (processTables ts) = processTables ts := by
  unfold processTables
  have hfix : ∀ a ∈ (ts.filter (fun t => !isFalseLit t.visibleToSupplier)).map projectTable,
      (!isFalseLit a.visibleToSupplier) = true := by
    intro a ha
    obtain ⟨b, -, rfl⟩ := List.mem_map.mp ha
    rfl
  rw [List.filter_eq_self.mpr hfix, List.map_map]
  exact List.map_congr_left (fun a _ => projectTable_idem a)

theorem projectSubsection_idem (s : Subsection) :
    projectSubsection (projectSubsection s) = projectSubsection s := by
  simp only [projectSubsection, Option.getD_some]
  by_cases ht : s.type == ""
  · simp [ht, processFields_idem, processTables_idem, jsOr_false_idem]
  · simp [ht, processFields_idem, processTables_idem, jsOr_false_idem]

theorem processSubsections_idem (subs : List Subsection) :
    processSubsections (processSubsections subs) = processSubsections subs := by
  unfold processSubsections
  have hfix : ∀ a ∈ (subs.filter (fun x => !isFalseLit x.visibleToSupplier)).map projectSubsection,
      (!isFalseLit a.visibleToSupplier) = true := by
    intro a ha
    obtain ⟨b, -, rfl⟩ := List.mem_map.mp ha
    rfl
  rw [List.filter_eq_self.mpr hfix, List.map_map]
  exact List.map_congr_left (fun a _ => projectSubsection_idem a)

end SqrModel

/-- C6: projection is idempotent.  Applying the node transforms
`processFields`, `processSubsections` and `processTables` of the projector
to their own output yields the same result, so projecting an already
projected document is a no-op. -/
theorem claim_C6_projection_idempotent :
    (∀ fs : List Field, SqrModel.processFields (SqrModel.processFields fs) = SqrModel.processFields fs)
    ∧ (∀ subs : List Subsection,
        SqrModel.processSubsections (SqrModel.processSubsections subs) = SqrModel.processSubsections subs)
    ∧ (∀ ts : List Table, SqrModel.processTables (SqrModel.processTables ts) = SqrModel.processTables ts) :=
  ⟨SqrModel.processFields_idem, SqrModel.processSubsections_idem, SqrModel.processTables_idem⟩

/-- C9 counterexample: on a visible field with `defaultValue = 0` (present
but falsy) and `value = "5"`, the projector keeps `"5"`, while the claimed
substitution `defaultValue ?? value ?? ""` yields `0`: the code uses JS
`||` (truthiness), not `??` (nullish coalescing). -/
theorem claim_C9_counterexample :
    (SqrModel.processFields [Instances.fieldC9]).map Field.value = [.str "5"]
    ∧ jsNullish Instances.fieldC9.defaultValue
        (jsNullish Instances.fieldC9.value (.str "")) = .num 0
    ∧ JSVal.str "5" ≠ JSVal.num 0 := by
  refine ⟨by decide, by decide, by decide⟩

/-- C9 amended: for every field that survives projection, the projected
value is `defaultValue || value || ""` under JS truthiness, that is the
defaultValue when truthy, otherwise the existing value when truthy,
otherwise the empty string; a falsy-but-present default (0, "", false) is
skipped. -/
theorem claim_C9_amended (f : Field) (h : isFalseLit f.visibleToSupplier = false) :
    ∃ g, SqrModel.processFields [f] = [g]
      ∧ g.value = (if jsTruthy f.defaultValue then f.defaultValue
          else if jsTruthy f.value then f.value else .str "")
      ∧ g.id = f.id := by
  refine ⟨SqrModel.projectField f, ?_, ?_, rfl⟩
  · simp [SqrModel.processFields, h]
  · simp [SqrModel.projectField, jsOr]

/-- Witness for the amended C9 at the concrete field with
`defaultValue = 0`. -/
theorem claim_C9_amended_witness :
    (SqrModel.processFields [Instances.fieldC9]).map Field.value = [.str "5"] := by
  obtain ⟨g, hg, hv, -⟩ := claim_C9_amended Instances.fieldC9 (by decide)
  rw [hg]
  simp only [List.map]
  rw [hv]
  decide

namespace SqrModel

theorem processFields_allVisible (fs : List Field) : (processFields fs).all fieldVisibleB = true := by
  rw [processFields, List.all_map]
  exact List.all_eq_true.mpr (fun x _ => rfl)

theorem tableVisibleB_projectTable (t : Table) : tableVisibleB (projectTable t) = true := by
  have h : ((t.columns.filter (fun c => !isFalseLit c.visibleToSupplier)).map projectColumn).all
      columnVisibleB = true := by
    rw [List.all_map]
    exact List.all_eq_true.mpr (fun x _ => rfl)
  simp [tableVisibleB, projectTable, h]

theorem processTables_allVisible (ts : List Table) : (processTables ts).all tableVisibleB = true := by
  rw [processTables, List.all_map]
  exact List.all_eq_true.mpr (fun x _ => tableVisibleB_projectTable x)

theorem subsectionVisibleB_projectSubsection (s : Subsection) :
    subsectionVisibleB (projectSubsection s) = true := by
  have hf := processFields_allVisible (s.fields.getD [])
  have ht := processTables_allVisible (s.tables.getD [])
  simp [subsectionVisibleB, projectSubsection, hf, ht]

theorem processSubsections_allVisible (subs : List Subsection) :
    (processSubsections subs).all subsectionVisibleB = true := by
  rw [processSubsections, List.all_map]
  exact List.all_eq_true.mpr (fun x _ => subsectionVisibleB_projectSubsection x)

theorem sectionVisibleB_projectSection (s : Section) : sectionVisibleB (projectSection s) = true := by
  have hf := processFields_allVisible (s.fields.getD [])
  have hs := processSubsections_allVisible (s.subsections.getD [])
  have ht := processTables_allVisible (s.tables.getD [])
  simp [sectionVisibleB, projectSection, hf, hs, ht]

theorem processTemplateSections_allVisible (secs : List Section) :
    (processTemplateSections secs).all sectionVisibleB = true := by
  rw [processTemplateSections, List.all_map]
  exact List.all_eq_true.mpr (fun x _ => sectionVisibleB_projectSection x)

theorem generalDetailsSection_visible (rfq : RFQ) :
    sectionVisibleB (generalDetailsSection rfq) = true := rfl

theorem scopeOfWorkSection_visible (rfq : RFQ) :
    sectionVisibleB (scopeOfWorkSection rfq) = true := rfl

theorem quoteSummarySection_visible : sectionVisibleB quoteSummarySection = true := rfl

theorem questionnaireSection_visible (qs : List QSectionIn) :
    sectionVisibleB (questionnaireSection qs) = true := by
  have h : (qs.map questionnaireSubsection).all subsectionVisibleB = true :=
    all_map_of (fun x _ => rfl)
  simp [sectionVisibleB, questionnaireSection, h]

theorem commercialSection_visible (its : List Row) :
    sectionVisibleB (commercialSection its) = true := by
  have h : (commercialColumns its).all columnVisibleB = true := by
    rw [commercialColumns]
    exact all_map_of (fun x _ => rfl)
  simp [sectionVisibleB, commercialSection, tableVisibleB, h]

theorem adHocSections_allVisible (rfq : RFQ) : (adHocSections rfq).all sectionVisibleB = true := by
  unfold adHocSections
  cases hqn : rfq.questionnaire <;> cases hit : rfq.items <;>
    by_cases hs : jsTruthy rfq.scopeOfWork <;>
      simp [hs, List.all_append, List.all_cons, List.all_nil,
        generalDetailsSection_visible, scopeOfWorkSection_visible, quoteSummarySection_visible,
        questionnaireSection_visible, commercialSection_visible]

theorem processRFQSections_allVisible (rfq : RFQ) :
    (processRFQSections rfq).all sectionVisibleB = true := by
  unfold processRFQSections
  split
  · exact processTemplateSections_allVisible _
  · exact adHocSections_allVisible _

theorem processFields_erase (xs ys : List Field) (f : Field)
    (h : isFalseLit f.visibleToSupplier = true) :
    processFields (xs ++ f :: ys) = processFields (xs ++ ys) := by
  unfold processFields
  rw [List.filter_append, List.filter_append, List.filter_cons]
  simp [h]

theorem processTables_erase (xs ys : List Table) (t : Table)
    (h : isFalseLit t.visibleToSupplier = true) :
    processTables (xs ++ t :: ys) = processTables (xs ++ ys) := by
  unfold processTables
  rw [List.filter_append, List.filter_append, List.filter_cons]
  simp [h]

theorem processSubsections_erase (xs ys : List Subsection) (s : Subsection)
    (h : isFalseLit s.visibleToSupplier = true) :
    processSubsections (xs ++ s :: ys) = processSubsections (xs ++ ys) := by
  unfold processSubsections
  rw [List.filter_append, List.filter_append, List.filter_cons]
  simp [h]

theorem processTemplateSections_erase (xs ys : List Section) (s : Section)
    (h : isFalseLit s.visibleToSupplier = true) :
    processTemplateSections (xs ++ s :: ys) = processTemplateSections (xs ++ ys) := by
  unfold processTemplateSections
  rw [List.filter_append, List.filter_append, List.filter_cons]
  simp [h]

theorem processTables_column_erase (t : Table) (xs ys : List Column) (c : Column)
    (h : isFalseLit c.visibleToSupplier = true) :
    processTables [{ t with columns := xs ++ c :: ys }]
      = processTables [{ t with columns := xs ++ ys }] := by
  unfold processTables
  by_cases hv : isFalseLit t.visibleToSupplier
  · simp [hv]
  · simp [hv, projectTable, List.filter_append, List.filter_cons, h]

end SqrModel

/-- C3: visibility is exclusionary and inherited.  Every node of a
projected document (section, subsection, field, table, column) carries
`visibleToSupplier = true` — so no node with `visibleToSupplier === false`
survives — and a node marked invisible is erased together with its entire
subtree at every level of the projection, so no descendant of a hidden
node is considered regardless of its own flags. -/
theorem claim_C3_visibility_exclusionary :
    (∀ rfq : RFQ, (SqrModel.processRFQSections rfq).all SqrModel.sectionVisibleB = true)
    ∧ (∀ (xs ys : List Section) (sec : Section), isFalseLit sec.visibleToSupplier = true →
        SqrModel.processTemplateSections (xs ++ sec :: ys) = SqrModel.processTemplateSections (xs ++ ys))
    ∧ (∀ (xs ys : List Subsection) (sub : Subsection), isFalseLit sub.visibleToSupplier = true →
        SqrModel.processSubsections (xs ++ sub :: ys) = SqrModel.processSubsections (xs ++ ys))
    ∧ (∀ (xs ys : List Field) (f : Field), isFalseLit f.visibleToSupplier = true →
        SqrModel.processFields (xs ++ f :: ys) = SqrModel.processFields (xs ++ ys))
    ∧ (∀ (xs ys : List Table) (t : Table), isFalseLit t.visibleToSupplier = true →
        SqrModel.processTables (xs ++ t :: ys) = SqrModel.processTables (xs ++ ys))
    ∧ (∀ (t : Table) (xs ys : List Column) (c : Column), isFalseLit c.visibleToSupplier = true →
        SqrModel.processTables [{ t with columns := xs ++ c :: ys }]
          = SqrModel.processTables [{ t with columns := xs ++ ys }]) :=
  ⟨SqrModel.processRFQSections_allVisible,
   SqrModel.processTemplateSections_erase,
   SqrModel.processSubsections_erase,
   SqrModel.processFields_erase,
   SqrModel.processTables_erase,
   SqrModel.processTables_column_erase⟩

/-- Witness for C3 at a concrete hidden section: projecting a template
containing only the hidden section yields the same (empty) output as
projecting the empty template, even though the hidden section contains a
visible field. -/
theorem claim_C3_visibility_exclusionary_witness :
    SqrModel.processTemplateSections [Instances.hiddenSection]
      = SqrModel.processTemplateSections [] := by
  have h := claim_C3_visibility_exclusionary.2.1 [] [] Instances.hiddenSection (by decide)
  simpa using h

/-- C7: a missing worksheet skips only its own section.  The extraction
loop maps each section independently (same length, pointwise image), and a
section whose title has no worksheet in the uploaded workbook is returned
unchanged — its fields and tables keep their original values — while every
other section is still processed. -/
theorem claim_C7_missing_worksheet_skipped :
    (∀ (wb : Workbook) (sections : List Section),
      (ExcelService.extractSections wb sections).length = sections.length)
    ∧ (∀ (wb : Workbook) (sections : List Section) (i : Nat),
        (ExcelService.extractSections wb sections)[i]?
          = (sections[i]?).map (ExcelService.extractSection wb))
    ∧ (∀ (wb : Workbook) (s : Section), getWorksheet wb s.title = none →
        ExcelService.extractSection wb s = s) := by
  refine ⟨?_, ?_, ?_⟩
  · intro wb sections
    simp [ExcelService.extractSections]
  · intro wb sections i
    simp [ExcelService.extractSections, List.getElem?_map]
  · intro wb s h
    unfold ExcelService.extractSection
    by_cases hv : isFalseLit s.visibleToSupplier
    · simp [hv]
    · simp [hv, h]

/-- Witness for C7: the Scope of Work section is unchanged when extracted
against a workbook with no sheets. -/
theorem claim_C7_missing_worksheet_skipped_witness :
    ExcelService.extractSection [] Instances.sectionC7 = Instances.sectionC7 :=
  claim_C7_missing_worksheet_skipped.2.2 [] Instances.sectionC7 (by decide)

theorem verify_true_implies (wb : Workbook) (rfq : RFQ) (sid : String)
    (h : ExcelService.verifySupplierUUID wb rfq sid = true) :
    ∃ t, ExcelService.storedToken rfq sid = some t ∧ ExcelService.readUUID wb = .str t := by
  simp only [ExcelService.verifySupplierUUID] at h
  split at h
  · simp at h
  next ws hws =>
    split at h
    · simp at h
    · split at h
      · simp at h
      next sup hf =>
        split at h
        · simp at h
        next stored he =>
          split at h
          · simp at h
          next hse =>
            refine ⟨stored, ?_, ?_⟩
            · unfold ExcelService.storedToken
              rw [hf]
              simp [he]
            · unfold ExcelService.readUUID
              rw [hws]
              exact eq_of_beq h

theorem verify_false_of (wb : Workbook) (rfq : RFQ) (sid : String)
    (h : Option.map JSVal.str (ExcelService.storedToken rfq sid) ≠ some (ExcelService.readUUID wb)) :
    ExcelService.verifySupplierUUID wb rfq sid = false := by
  by_cases hv : ExcelService.verifySupplierUUID wb rfq sid = true
  · obtain ⟨t, hst, hru⟩ := verify_true_implies wb rfq sid hv
    exact absurd (by rw [hst, hru]; rfl) h
  · exact Bool.eq_false_iff.mpr hv

/-- C1: the embedded token is verified before any data extraction.  For
every uploaded workbook, RFQ and supplier id, if the Verification UUID
value carried by the workbook is absent or does not equal the token stored
for that supplier, `extractDataFromExcelBuffer` fails the whole operation
with the authenticity error — it returns no reconciled structure, so no
extracted value can be applied to the document. -/
theorem claim_C1_token_verified_before_extraction (wb : Workbook) (rfq : RFQ) (sid : String)
    (h : Option.map JSVal.str (ExcelService.storedToken rfq sid) ≠ some (ExcelService.readUUID wb)) :
    ExcelService.extractDataFromExcelBuffer wb rfq sid = .error ExcelService.authenticityErrorMsg := by
  have hv := verify_false_of wb rfq sid h
  unfold ExcelService.extractDataFromExcelBuffer
  rw [hv]
  rfl

/-- Witness for C1: a workbook carrying the stale token `tok-A` against a
stored token `tok-B` is rejected with the authenticity error. -/
theorem claim_C1_token_verified_before_extraction_witness :
    ExcelService.extractDataFromExcelBuffer Instances.wbC1 Instances.rfqC1 "7"
      = .error ExcelService.authenticityErrorMsg :=
  claim_C1_token_verified_before_extraction Instances.wbC1 Instances.rfqC1 "7" (by decide)

/-- C10: reconciliation has no fallback to the ad hoc document shape.  For
every workbook that passes token verification, when the RFQ has no
`template.processedStructure` the reconciliation throws the
missing-structure error and produces no reconciled document. -/
theorem claim_C10_no_template_fallback (wb : Workbook) (rfq : RFQ) (sid : String)
    (hv : ExcelService.verifySupplierUUID wb rfq sid = true)
    (hs : rfq.template.bind Template.processedStructure = none) :
    ExcelService.extractDataFromExcelBuffer wb rfq sid = .error ExcelService.noStructureMsg := by
  unfold ExcelService.extractDataFromExcelBuffer
  rw [hv, hs]
  rfl

/-- Witness for C10: a verified upload against a template-less RFQ fails
with the missing-structure error. -/
theorem claim_C10_no_template_fallback_witness :
    ExcelService.extractDataFromExcelBuffer Instances.wbC10 Instances.rfqC10 "7"
      = .error ExcelService.noStructureMsg :=
  claim_C10_no_template_fallback Instances.wbC10 Instances.rfqC10 "7" (by decide) (by decide)

theorem updateFirst_find? {α} (p : α → Bool) (f : α → α) (hpf : ∀ a, p (f a) = p a) :
    ∀ l : List α, (updateFirst p f l).find? p = (l.find? p).map f := by
  intro l
  induction l with
  | nil => rfl
  | cons x xs ih =>
    by_cases hx : p x = true
    · simp [updateFirst, hx, List.find?_cons_of_pos, hpf]
    · simp [updateFirst, hx, List.find?_cons_of_neg, hpf, ih]

/-- C4: regenerating a workbook overwrites the stored token.  Storing a
first token and then a second one for the same (RFQ, supplier) leaves the
second token stored, and — when the tokens differ — a workbook carrying
the first token fails `verifySupplierUUID` against the updated RFQ. -/
theorem claim_C4_token_overwrite (rfq : RFQ) (sid t1 t2 : String) (wb : Workbook)
    (hs : rfq.suppliers.any (fun s => s.id == sid) = true)
    (hne : t1 ≠ t2)
    (hr : ExcelService.readUUID wb = .str t1) :
    ExcelService.storedToken
        (ExcelService.storeSupplierUUID (ExcelService.storeSupplierUUID rfq sid t1) sid t2) sid
      = some t2
    ∧ ExcelService.verifySupplierUUID wb
        (ExcelService.storeSupplierUUID (ExcelService.storeSupplierUUID rfq sid t1) sid t2) sid
      = false := by
  obtain ⟨sup, hsup, hp⟩ := List.any_eq_true.mp hs
  have hfind : (rfq.suppliers.find? (fun s => s.id == sid)).isSome :=
    List.find?_isSome.mpr ⟨sup, hsup, hp⟩
  obtain ⟨s0, hf0⟩ := Option.isSome_iff_exists.mp hfind
  have hstored : ExcelService.storedToken
      (ExcelService.storeSupplierUUID (ExcelService.storeSupplierUUID rfq sid t1) sid t2) sid
      = some t2 := by
    show ((updateFirst (fun s => s.id == sid) (fun s => { s with excelUUID := some t2 })
        (updateFirst (fun s => s.id == sid) (fun s => { s with excelUUID := some t1 })
          rfq.suppliers)).find? (fun s => s.id == sid)).bind Supplier.excelUUID = some t2
    rw [updateFirst_find? (fun s : Supplier => s.id == sid)
          (fun s : Supplier => { s with excelUUID := some t2 }) (fun a => rfl),
        updateFirst_find? (fun s : Supplier => s.id == sid)
          (fun s : Supplier => { s with excelUUID := some t1 }) (fun a => rfl),
        hf0]
    rfl
  refine ⟨hstored, ?_⟩
  by_cases hv : ExcelService.verifySupplierUUID wb
      (ExcelService.storeSupplierUUID (ExcelService.storeSupplierUUID rfq sid t1) sid t2) sid = true
  · obtain ⟨t, hst, hru⟩ := verify_true_implies _ _ _ hv
    rw [hstored] at hst
    have ht2 : t = t2 := by injection hst with h1; exact h1.symm
    rw [hru] at hr
    have ht1 : t = t1 := by injection hr with h1
    exact absurd (ht1 ▸ ht2) hne
  · exact Bool.eq_false_iff.mpr hv

/-- Witness for C4: storing `tok-1` then `tok-2` for supplier 77 leaves
`tok-2` stored, and the first workbook no longer verifies. -/
theorem claim_C4_token_overwrite_witness :
    ExcelService.storedToken
        (ExcelService.storeSupplierUUID
          (ExcelService.storeSupplierUUID Instances.rfqC4 "77" "tok-1") "77" "tok-2") "77"
      = some "tok-2"
    ∧ ExcelService.verifySupplierUUID Instances.wbC4
        (ExcelService.storeSupplierUUID
          (ExcelService.storeSupplierUUID Instances.rfqC4 "77" "tok-1") "77" "tok-2") "77"
      = false :=
  claim_C4_token_overwrite Instances.rfqC4 "77" "tok-1" "tok-2" Instances.wbC4
    (by decide) (by decide) (by decide)

namespace ExcelService

theorem acceptedValue_mono (ws : Worksheet) (lbl : String) (v : JSVal) :
    ∃ w, ws.foldl (fun acc row =>
      if (cellAt row 1).value == .str lbl && isEditableFill (cellAt row 2).fill then
        some (cellAt row 2).value
      else acc) (some v) = some w := by
  induction ws generalizing v with
  | nil => exact ⟨v, rfl⟩
  | cons r rs ih =>
    simp only [List.foldl_cons]
    by_cases hc : ((cellAt r 1).value == .str lbl && isEditableFill (cellAt r 2).fill) = true
    · rw [if_pos hc]
      exact ih _
    · rw [if_neg hc]
      exact ih _

theorem parseFold_pair (ws : Worksheet) (lbl : String) :
    ∀ (g : Field) (a : Option JSVal),
      (∀ v, a = some v → g.value = formatCellValue v) →
      (ws.foldl (fun g row =>
        if (cellAt row 1).value == .str lbl && isEditableFill (cellAt row 2).fill then
          { g with value := formatCellValue (cellAt row 2).value }
        else g) g).value
      = match ws.foldl (fun acc row =>
          if (cellAt row 1).value == .str lbl && isEditableFill (cellAt row 2).fill then
            some (cellAt row 2).value
          else acc) a with
        | some v => formatCellValue v
        | none => g.value := by
  induction ws with
  | nil =>
    intro g a ha
    cases a with
    | none => rfl
    | some v => exact ha v rfl
  | cons r rs ih =>
    intro g a ha
    simp only [List.foldl_cons]
    by_cases hc : ((cellAt r 1).value == .str lbl && isEditableFill (cellAt r 2).fill) = true
    · rw [if_pos hc, if_pos hc]
      obtain ⟨w, hw⟩ := acceptedValue_mono rs lbl (cellAt r 2).value
      have hih := ih { g with value := formatCellValue (cellAt r 2).value }
        (some (cellAt r 2).value) (fun v hv => by cases hv; rfl)
      rw [hw] at hih ⊢
      exact hih
    · rw [if_neg hc, if_neg hc]
      exact ih g a ha

end ExcelService

/-- C5: field extraction trusts only the editable fill.  For every
worksheet and every editable, visible field, the upload-side field scan
accepts a new value exactly from the last row whose first cell equals the
field label AND whose adjacent value cell carries a solid pattern fill
with foreground FFFFD700 — otherwise the original value is kept; that fill
test matches exactly the fill the serializer applies to editable value
cells. -/
theorem claim_C5_field_fill_check (ws : Worksheet) (f : Field)
    (h1 : isFalseLit f.visibleToSupplier = false)
    (h2 : f.editableBySupplier = .bool true) :
    ((ExcelService.parseFieldScan ws f).value
      = match ExcelService.acceptedValue ws f.label with
        | some v => ExcelService.formatCellValue v
        | none => f.value)
    ∧ (∀ fl, ExcelService.isEditableFill fl = true ↔ fl = some ExcelService.editableFill)
    ∧ (∀ g : Field, (ExcelService.serializeFieldRow g).2.fill
        = if g.editableBySupplier == JSVal.bool true then some ExcelService.editableFill else none) := by
  refine ⟨?_, ?_, ?_⟩
  · have hguard : (isFalseLit f.visibleToSupplier || isFalseLit f.editableBySupplier) = false := by
      rw [h1, h2]
      rfl
    unfold ExcelService.parseFieldScan
    rw [hguard, if_neg Bool.false_ne_true]
    exact ExcelService.parseFold_pair ws f.label f none (fun v hv => nomatch hv)
  · intro fl
    cases fl with
    | none => simp [ExcelService.isEditableFill]
    | some x =>
      cases x with
      | mk ft pt fg =>
        simp only [ExcelService.isEditableFill, ExcelService.editableFill, Bool.and_eq_true,
          beq_iff_eq, Option.some.injEq, Fill.mk.injEq]
        tauto
  · intro g
    by_cases hg : (g.editableBySupplier == JSVal.bool true) = true
    · simp [ExcelService.serializeFieldRow, hg]
    · simp only [Bool.not_eq_true] at hg
      simp [ExcelService.serializeFieldRow, hg]

/-- Witness for C5: a Quantity row whose value cell carries the editable
fill is accepted (42), the same row without the fill leaves the original
value in place. -/
theorem claim_C5_field_fill_check_witness :
    (ExcelService.parseFieldScan Instances.wsC5 Instances.fieldC5).value = .str "42"
    ∧ (ExcelService.parseFieldScan Instances.wsC5bad Instances.fieldC5).value = .str "old" := by
  have h1 := (claim_C5_field_fill_check Instances.wsC5 Instances.fieldC5 (by decide) (by decide)).1
  have h2 := (claim_C5_field_fill_check Instances.wsC5bad Instances.fieldC5 (by decide) (by decide)).1
  refine ⟨?_, ?_⟩
  · rw [h1]
    decide
  · rw [h2]
    decide

theorem getKey_setKey_self (r : Row) (k : String) (v : JSVal) : getKey (setKey r k v) k = v := by
  induction r with
  | nil => simp [setKey, getKey]
  | cons p rest ih =>
    obtain ⟨k0, v0⟩ := p
    by_cases hk : (k0 == k) = true
    · simp [setKey, hk, getKey]
    · simp only [setKey, hk, Bool.false_eq_true, if_false]
      unfold getKey
      rw [List.find?_cons_of_neg]
      · exact ih
      · simpa using hk

theorem getKey_setKey_ne (r : Row) (k k2 : String) (v : JSVal) (h : k2 ≠ k) :
    getKey (setKey r k v) k2 = getKey r k2 := by
  induction r with
  | nil =>
    have hne : (k == k2) = false := by
      cases hb : k == k2
      · rfl
      · exact absurd (eq_of_beq hb).symm h
    simp [setKey, getKey, List.find?, hne]
  | cons p rest ih =>
    obtain ⟨k0, v0⟩ := p
    by_cases hk : (k0 == k) = true
    · have hk0 : k0 = k := eq_of_beq hk
      subst hk0
      have hne2 : (k0 == k2) = false := by
        cases hbe : k0 == k2
        · rfl
        · exact absurd (eq_of_beq hbe).symm h
      simp [setKey, getKey, List.find?, hne2]
    · simp only [setKey, hk, Bool.false_eq_true, if_false]
      unfold getKey
      cases hbe : ((k0, v0).1 == k2)
      · rw [List.find?_cons_of_neg, List.find?_cons_of_neg]
        · exact ih
        · simpa using hbe
        · simpa using hbe
      · rw [List.find?_cons_of_pos, List.find?_cons_of_pos]
        · simpa using hbe
        · simpa using hbe

theorem getKey_copyNonEditable (cols : List Column) (o : Row) (k : String) :
    ∀ r : Row, getKey (copyNonEditable cols o r) k
      = if cols.any (fun c => !(jsTruthy c.editableBySupplier) && c.accessorKey == k) = true
        then getKey o k else getKey r k := by
  induction cols with
  | nil => intro r; simp [copyNonEditable]
  | cons c cs ih =>
    intro r
    have hstep : copyNonEditable (c :: cs) o r
        = copyNonEditable cs o
          (if !(jsTruthy c.editableBySupplier) then setKey r c.accessorKey (getKey o c.accessorKey)
           else r) := by
      simp [copyNonEditable]
    rw [hstep]
    by_cases he : jsTruthy c.editableBySupplier = true
    · simp only [he, Bool.not_true, Bool.false_eq_true, if_false]
      rw [ih r]
      simp [List.any_cons, he]
    · have he2 : jsTruthy c.editableBySupplier = false := by
        cases hb : jsTruthy c.editableBySupplier
        · rfl
        · exact absurd hb he
      simp only [he2, Bool.not_false, if_true]
      by_cases hk : (c.accessorKey == k) = true
      · have hkk : c.accessorKey = k := eq_of_beq hk
        rw [ih _]
        have hany : ((c :: cs).any fun x => !(jsTruthy x.editableBySupplier) && x.accessorKey == k) = true := by
          simp [List.any_cons, he2, hk]
        rw [if_pos hany]
        by_cases h2 : (cs.any fun x => !(jsTruthy x.editableBySupplier) && x.accessorKey == k) = true
        · rw [if_pos h2]
        · rw [if_neg h2]
          rw [hkk]
          exact getKey_setKey_self r k (getKey o k)
      · rw [ih _]
        have hanyeq : ((c :: cs).any fun x => !(jsTruthy x.editableBySupplier) && x.accessorKey == k)
            = (cs.any fun x => !(jsTruthy x.editableBySupplier) && x.accessorKey == k) := by
          simp [List.any_cons, hk]
        rw [hanyeq]
        by_cases h2 : (cs.any fun x => !(jsTruthy x.editableBySupplier) && x.accessorKey == k) = true
        · rw [if_pos h2, if_pos h2]
        · rw [if_neg h2, if_neg h2]
          exact getKey_setKey_ne r c.accessorKey k (getKey o c.accessorKey)
            (fun hh => by rw [hh] at hk; simp at hk)

theorem getKey_applyEditable_no_write (headers : List String) (row : SheetRow) (k : String) :
    ∀ cols : List Column,
      (∀ c ∈ cols, jsTruthy c.editableBySupplier = true → (c.accessorKey == k) = false) →
      ∀ r : Row, getKey (applyEditableFromSheet cols headers row r) k = getKey r k := by
  intro cols
  induction cols with
  | nil => intro _ r; rfl
  | cons c cs ih =>
    intro h r
    have hstep : applyEditableFromSheet (c :: cs) headers row r
        = applyEditableFromSheet cs headers row
          (if jsTruthy c.editableBySupplier then
            match headers.findIdx? (fun x => strLower x == strLower c.header) with
            | some hi => setKey r c.accessorKey (.str (textTrim (cellAt row (hi + 1))))
            | none => r
           else r) := by
      simp [applyEditableFromSheet]
    rw [hstep]
    have htail := fun c2 hc2 => h c2 (List.mem_cons_of_mem c hc2)
    by_cases he : jsTruthy c.editableBySupplier = true
    · have hk := h c (List.mem_cons_self c cs) he
      cases hfi : headers.findIdx? (fun x => strLower x == strLower c.header) with
      | none =>
        simp only [he, if_true, hfi]
        exact ih htail r
      | some hi =>
        simp only [he, if_true, hfi]
        rw [ih htail _]
        exact getKey_setKey_ne r c.accessorKey k _ (fun hh => by rw [hh] at hk; simp at hk)
    · have he2 : jsTruthy c.editableBySupplier = false := by
        cases hb : jsTruthy c.editableBySupplier
        · rfl
        · exact absurd hb he
      simp only [he2, Bool.false_eq_true, if_false]
      exact ih htail r

theorem getKey_applyEditable_stable (headers : List String) (row : SheetRow) (k : String) (v : JSVal) :
    ∀ cols : List Column,
      (∀ c ∈ cols, (c.accessorKey == k) = true → jsTruthy c.editableBySupplier = true →
        ∀ hi, headers.findIdx? (fun x => strLower x == strLower c.header) = some hi →
          JSVal.str (textTrim (cellAt row (hi + 1))) = v) →
      ∀ r : Row, getKey r k = v → getKey (applyEditableFromSheet cols headers row r) k = v := by
  intro cols
  induction cols with
  | nil => intro _ r hr; exact hr
  | cons c cs ih =>
    intro h r hr
    have hstep : applyEditableFromSheet (c :: cs) headers row r
        = applyEditableFromSheet cs headers row
          (if jsTruthy c.editableBySupplier then
            match headers.findIdx? (fun x => strLower x == strLower c.header) with
            | some hi => setKey r c.accessorKey (.str (textTrim (cellAt row (hi + 1))))
            | none => r
           else r) := by
      simp [applyEditableFromSheet]
    rw [hstep]
    have htail := fun c2 hc2 => h c2 (List.mem_cons_of_mem c hc2)
    by_cases he : jsTruthy c.editableBySupplier = true
    · cases hfi : headers.findIdx? (fun x => strLower x == strLower c.header) with
      | none =>
        simp only [he, if_true, hfi]
        exact ih htail r hr
      | some hi =>
        simp only [he, if_true, hfi]
        by_cases hk : (c.accessorKey == k) = true
        · have hkk : c.accessorKey = k := eq_of_beq hk
          have hv := h c (List.mem_cons_self c cs) hk he hi hfi
          refine ih htail _ ?_
          rw [hkk]
          rw [getKey_setKey_self]
          exact hv
        · refine ih htail _ ?_
          rw [getKey_setKey_ne r c.accessorKey k _ (fun hh => by rw [hh] at hk; simp at hk)]
          exact hr
    · have he2 : jsTruthy c.editableBySupplier = false := by
        cases hb : jsTruthy c.editableBySupplier
        · rfl
        · exact absurd hb he
      simp only [he2, Bool.false_eq_true, if_false]
      exact ih htail r hr

theorem getKey_applyEditable_hit (headers : List String) (row : SheetRow) (k : String)
    (c : Column) (he : jsTruthy c.editableBySupplier = true) (hk : (c.accessorKey == k) = true)
    (hi : Nat) (hfi : headers.findIdx? (fun x => strLower x == strLower c.header) = some hi) :
    ∀ cols : List Column, c ∈ cols →
      (∀ c2 ∈ cols, (c2.accessorKey == k) = true → c2 = c) →
      ∀ r : Row, getKey (applyEditableFromSheet cols headers row r) k
        = .str (textTrim (cellAt row (hi + 1))) := by
  intro cols
  induction cols with
  | nil => intro hc; exact absurd hc (List.not_mem_nil c)
  | cons c0 cs ih =>
    intro hc hu r
    have hstep : applyEditableFromSheet (c0 :: cs) headers row r
        = applyEditableFromSheet cs headers row
          (if jsTruthy c0.editableBySupplier then
            match headers.findIdx? (fun x => strLower x == strLower c0.header) with
            | some hj => setKey r c0.accessorKey (.str (textTrim (cellAt row (hj + 1))))
            | none => r
           else r) := by
      simp [applyEditableFromSheet]
    rw [hstep]
    have hutail := fun c2 hc2 => hu c2 (List.mem_cons_of_mem c0 hc2)
    have hall : ∀ c2 ∈ cs, (c2.accessorKey == k) = true → jsTruthy c2.editableBySupplier = true →
        ∀ hj, headers.findIdx? (fun x => strLower x == strLower c2.header) = some hj →
          JSVal.str (textTrim (cellAt row (hj + 1))) = .str (textTrim (cellAt row (hi + 1))) := by
      intro c2 hc2 hk2 _ hj hfj
      have hcc : c2 = c := hutail c2 hc2 hk2
      subst hcc
      rw [hfi] at hfj
      injection hfj with hje
      rw [hje]
    by_cases hc0 : c0 = c
    · subst hc0
      simp only [he, if_true, hfi]
      exact getKey_applyEditable_stable headers row k _ cs hall _
        (by rw [eq_of_beq hk]; exact getKey_setKey_self r k _)
    · have hcs : c ∈ cs := by
        rcases List.mem_cons.mp hc with hh | hh
        · exact absurd hh.symm hc0
        · exact hh
      have hk0 : (c0.accessorKey == k) = false := by
        cases hb : c0.accessorKey == k
        · rfl
        · exact absurd (hu c0 (List.mem_cons_self c0 cs) hb) hc0
      by_cases he0 : jsTruthy c0.editableBySupplier = true
      · cases hfi0 : headers.findIdx? (fun x => strLower x == strLower c0.header) with
        | none =>
          simp only [he0, if_true, hfi0]
          exact ih hcs hutail r
        | some hj =>
          simp only [he0, if_true, hfi0]
          exact ih hcs hutail _
      · have he2 : jsTruthy c0.editableBySupplier = false := by
          cases hb : jsTruthy c0.editableBySupplier
          · rfl
          · exact absurd hb he0
        simp only [he2, Bool.false_eq_true, if_false]
        exact ih hcs hutail r

/-- C2: non-editable columns are backfilled from the original row.  In the
section-level table reconciler, the value produced for any column not
flagged editable equals the original data row value at the same positional
index, no matter what the uploaded sheet contains; the value produced for
an editable column (unique for its accessor) is read from the sheet cell
under the matching header; and the subsection-level reconciler likewise
returns the original value for a non-editable column whose accessor no
editable column shares. -/
theorem claim_C2_noneditable_backfill :
    (∀ (t : Table) (ws : Worksheet) (lst : List Row) (i : Nat) (hi : i < lst.length)
        (c : Column) (o : Row),
        ExcelImportService.extractTableData t ws = some lst →
        c ∈ t.columns → jsTruthy c.editableBySupplier = false →
        (t.data.getD []).get? i = some o →
        getKey (lst.get ⟨i, hi⟩) c.accessorKey = getKey o c.accessorKey)
    ∧ (∀ (t : Table) (headers : List String) (row : SheetRow) (o : Row) (c : Column) (hi : Nat),
        c ∈ t.columns → jsTruthy c.editableBySupplier = true →
        (∀ c2 ∈ t.columns, c2.accessorKey = c.accessorKey → c2 = c) →
        headers.findIdx? (fun x => strLower x == strLower c.header) = some hi →
        getKey (ExcelImportService.reconcileRow t headers row (some o)) c.accessorKey
          = .str (textTrim (cellAt row (hi + 1))))
    ∧ (∀ (t : Table) (headers : List String) (row : SheetRow) (o : Row) (c : Column),
        c ∈ t.columns → jsTruthy c.editableBySupplier = false →
        (∀ c2 ∈ t.columns, jsTruthy c2.editableBySupplier = true →
          c2.accessorKey ≠ c.accessorKey) →
        getKey (ExcelService.reconcileSubsectionRow t headers row (some o)) c.accessorKey
          = getKey o c.accessorKey) := by
  refine ⟨?_, ?_, ?_⟩
  · intro t ws lst i hi c o h8 hc hne ho
    unfold ExcelImportService.extractTableData at h8
    cases hft : findLastTitleRow ws t.title with
    | none => rw [hft] at h8; exact absurd h8 (by simp)
    | some titleRow =>
      rw [hft] at h8
      simp only [] at h8
      injection h8 with heq
      subst heq
      simp only [List.get_eq_getElem, List.getElem_map, List.getElem_range]
      rw [ho]
      unfold ExcelImportService.reconcileRow
      simp only []
      rw [getKey_copyNonEditable]
      have hany : (t.columns.any fun x =>
          !(jsTruthy x.editableBySupplier) && x.accessorKey == c.accessorKey) = true :=
        List.any_eq_true.mpr ⟨c, hc, by rw [hne]; simp⟩
      rw [if_pos hany]
  · intro t headers row o c hi hc he hu hfi
    unfold ExcelImportService.reconcileRow
    simp only []
    rw [getKey_copyNonEditable]
    have hany : (t.columns.any fun x =>
        !(jsTruthy x.editableBySupplier) && x.accessorKey == c.accessorKey) = false := by
      cases hb : t.columns.any fun x =>
          !(jsTruthy x.editableBySupplier) && x.accessorKey == c.accessorKey
      · rfl
      · obtain ⟨x, hx, hpx⟩ := List.any_eq_true.mp hb
        rw [Bool.and_eq_true] at hpx
        obtain ⟨hnx, hxk⟩ := hpx
        have hxc : x = c := hu x hx (eq_of_beq hxk)
        subst hxc
        rw [he] at hnx
        simp at hnx
    rw [if_neg (Bool.eq_false_iff.mp hany)]
    exact getKey_applyEditable_hit headers row c.accessorKey c he (by simp) hi hfi t.columns hc
      (fun c2 hc2 hk2 => hu c2 hc2 (eq_of_beq hk2)) []
  · intro t headers row o c hc hne hu
    unfold ExcelService.reconcileSubsectionRow
    simp only []
    have hno : ∀ c2 ∈ t.columns, jsTruthy c2.editableBySupplier = true →
        (c2.accessorKey == c.accessorKey) = false := by
      intro c2 hc2 he2
      cases hb : c2.accessorKey == c.accessorKey
      · rfl
      · exact absurd (eq_of_beq hb) (hu c2 hc2 he2)
    rw [getKey_applyEditable_no_write headers row c.accessorKey t.columns hno _]
    rw [getKey_copyNonEditable]
    by_cases h2 : (t.columns.any fun x =>
        !(jsTruthy x.editableBySupplier) && x.accessorKey == c.accessorKey) = true
    · rw [if_pos h2]
    · rw [if_neg h2]

/-- Witness for C2 at the full-cycle scenario: the reconciled row keeps the
original description Widget (the Hacked cell is ignored) while the
editable unit price 9.99 is taken from the sheet. -/
theorem claim_C2_noneditable_backfill_witness :
    ExcelImportService.extractTableData Instances.tableC2 Instances.wsC2 = some [Instances.outRowC2]
    ∧ getKey Instances.outRowC2 "description" = getKey Instances.origRowC2 "description"
    ∧ getKey Instances.outRowC2 "unitPrice" = .str "9.99" := by
  refine ⟨by decide, ?_, by decide⟩
  have h := claim_C2_noneditable_backfill.1 Instances.tableC2 Instances.wsC2 [Instances.outRowC2]
    0 (by decide) Instances.descCol Instances.origRowC2 (by decide) (by decide) (by decide)
  exact h (by decide)

/-- C8 counterexample: for item id 1, supplier A offers the non-numeric
price "abc" and supplier B offers "9.50".  The aggregation selects the
supplier A record (its `Number("abc")` baseline is `NaN`, every comparison
with which is false, so the first record wins the reduce) instead of
excluding it and selecting the numeric 9.50 of supplier B as the claim
states. -/
theorem claim_C8_counterexample :
    RfqUtils.lowestQuotedItems [Instances.quoteA, Instances.quoteB]
      ≠ RfqUtils.lowestQuotedItemsSpec [Instances.quoteA, Instances.quoteB]
    ∧ RfqUtils.lowestQuotedItems [Instances.quoteA, Instances.quoteB]
        = [some { id := .str "1", baseLine := none, supplierId := "A" }]
    ∧ RfqUtils.lowestQuotedItemsSpec [Instances.quoteA, Instances.quoteB]
        = [some { id := .str "1", baseLine := some (950, 100), supplierId := "B" }] := by
  refine ⟨by decide, by decide, by decide⟩

theorem crossmul_trans {n1 n2 n3 d1 d2 d3 : Int} (hd1 : 0 ≤ d1) (hd2 : 0 < d2) (hd3 : 0 ≤ d3)
    (h12 : n1 * d2 ≤ n2 * d1) (h23 : n2 * d3 ≤ n3 * d2) : n1 * d3 ≤ n3 * d1 := by
  have k1 := mul_le_mul_of_nonneg_right h12 hd3
  have k2 := mul_le_mul_of_nonneg_right h23 hd1
  have key : n1 * d3 * d2 ≤ n3 * d1 * d2 := by nlinarith [k1, k2]
  exact le_of_mul_le_mul_right key hd2

theorem baseLineLe_refl (a : RfqUtils.QRec) : RfqUtils.baseLineLe a a := by
  intro n d n2 d2 h1 h2
  rw [h1] at h2
  injection h2 with h3
  injection h3 with ha hb
  subst ha
  subst hb
  exact le_refl _

theorem baseLineLe_trans (a b c : RfqUtils.QRec) (hb : RfqUtils.numericBaseLine b)
    (h1 : RfqUtils.baseLineLe a b) (h2 : RfqUtils.baseLineLe b c) : RfqUtils.baseLineLe a c := by
  intro n d n2 d2 ha hc
  obtain ⟨nm, dm, hbm, hdm⟩ := hb
  have x1 := h1 n d nm dm ha hbm
  have x2 := h2 nm dm n2 d2 hbm hc
  exact crossmul_trans (Int.ofNat_nonneg d) (by exact_mod_cast hdm) (Int.ofNat_nonneg d2) x1 x2

theorem foldLowest_min :
    ∀ (l : List RfqUtils.QRec) (init : RfqUtils.QRec),
      RfqUtils.numericBaseLine init →
      (∀ r ∈ l, RfqUtils.numericBaseLine r) →
      (l.foldl (fun lowest cur => if jsNumLt cur.baseLine lowest.baseLine then cur else lowest) init
          = init
        ∨ l.foldl (fun lowest cur => if jsNumLt cur.baseLine lowest.baseLine then cur else lowest) init
          ∈ l)
      ∧ RfqUtils.baseLineLe
          (l.foldl (fun lowest cur => if jsNumLt cur.baseLine lowest.baseLine then cur else lowest) init)
          init
      ∧ ∀ r ∈ l, RfqUtils.baseLineLe
          (l.foldl (fun lowest cur => if jsNumLt cur.baseLine lowest.baseLine then cur else lowest) init)
          r := by
  intro l
  induction l with
  | nil =>
    intro init hinit _
    exact ⟨Or.inl rfl, baseLineLe_refl init, by intro r hr; cases hr⟩
  | cons cur rs ih =>
    intro init hinit hall
    have hcur : RfqUtils.numericBaseLine cur := hall cur (List.mem_cons_self cur rs)
    have htail : ∀ r ∈ rs, RfqUtils.numericBaseLine r :=
      fun r hr => hall r (List.mem_cons_of_mem cur hr)
    obtain ⟨ni, di, hbi, hdi⟩ := hinit
    obtain ⟨nc, dc, hbc, hdc⟩ := hcur
    simp only [List.foldl_cons]
    have hinit2 : RfqUtils.numericBaseLine
        (if jsNumLt cur.baseLine init.baseLine then cur else init) := by
      split
      · exact ⟨nc, dc, hbc, hdc⟩
      · exact ⟨ni, di, hbi, hdi⟩
    obtain ⟨hmem, hle_init2, hle_rs⟩ := ih _ hinit2 htail
    have hle1 : RfqUtils.baseLineLe (if jsNumLt cur.baseLine init.baseLine then cur else init) init := by
      by_cases hsp : jsNumLt cur.baseLine init.baseLine = true
      · rw [if_pos hsp]
        intro n d n2 d2 h1 h2
        rw [hbc] at h1
        rw [hbi] at h2
        injection h1 with h1
        injection h2 with h2
        injection h1 with ha hb
        injection h2 with hc2 hd2
        subst ha; subst hb; subst hc2; subst hd2
        rw [hbc, hbi] at hsp
        simp only [jsNumLt] at hsp
        exact le_of_lt (of_decide_eq_true hsp)
      · rw [if_neg hsp]
        exact baseLineLe_refl init
    have hle2 : RfqUtils.baseLineLe (if jsNumLt cur.baseLine init.baseLine then cur else init) cur := by
      by_cases hsp : jsNumLt cur.baseLine init.baseLine = true
      · rw [if_pos hsp]
        exact baseLineLe_refl cur
      · rw [if_neg hsp]
        intro n d n2 d2 h1 h2
        rw [hbi] at h1
        rw [hbc] at h2
        injection h1 with h1
        injection h2 with h2
        injection h1 with ha hb
        injection h2 with hc2 hd2
        subst ha; subst hb; subst hc2; subst hd2
        have hnot : ¬(nc * (di : Int) < ni * (dc : Int)) := by
          intro hlt
          apply hsp
          rw [hbc, hbi]
          simp only [jsNumLt]
          exact decide_eq_true hlt
        exact Int.not_lt.mp hnot
    refine ⟨?_, ?_, ?_⟩
    · rcases hmem with heq | hin
      · rw [heq]
        by_cases hsp : jsNumLt cur.baseLine init.baseLine = true
        · rw [if_pos hsp]
          exact Or.inr (List.mem_cons_self cur rs)
        · rw [if_neg hsp]
          exact Or.inl rfl
      · exact Or.inr (List.mem_cons_of_mem cur hin)
    · exact baseLineLe_trans _ _ _ hinit2 hle_init2 hle1
    · intro r hr
      rcases List.mem_cons.mp hr with rfl | hin
      · exact baseLineLe_trans _ _ _ hinit2 hle_init2 hle2
      · exact hle_rs r hin

theorem pushGroup_inv {quotes : List RfqUtils.SupplierQuote}
    {gs : List (String × List RfqUtils.QRec)} {k : String} {r : RfqUtils.QRec}
    (hgs : RfqUtils.InvGroups quotes gs) (hr : RfqUtils.RecFrom quotes r) :
    RfqUtils.InvGroups quotes (RfqUtils.pushGroup gs k r) := by
  intro g hg r2 hr2
  unfold RfqUtils.pushGroup at hg
  split at hg
  · obtain ⟨g0, hg0, hmap⟩ := List.mem_map.mp hg
    by_cases hk : (g0.1 == k) = true
    · rw [if_pos hk] at hmap
      subst hmap
      rcases List.mem_append.mp hr2 with h | h
      · exact hgs g0 hg0 r2 h
      · rw [List.mem_singleton.mp h]
        exact hr
    · rw [if_neg hk] at hmap
      subst hmap
      exact hgs g0 hg0 r2 hr2
  · rcases List.mem_append.mp hg with h | h
    · exact hgs g h r2 hr2
    · rw [List.mem_singleton.mp h] at hr2
      rw [List.mem_singleton.mp hr2]
      exact hr

theorem ensureGroup_inv {quotes : List RfqUtils.SupplierQuote}
    {gs : List (String × List RfqUtils.QRec)} {k : String}
    (hgs : RfqUtils.InvGroups quotes gs) :
    RfqUtils.InvGroups quotes (RfqUtils.ensureGroup gs k) := by
  intro g hg r2 hr2
  unfold RfqUtils.ensureGroup at hg
  split at hg
  · exact hgs g hg r2 hr2
  · rcases List.mem_append.mp hg with h | h
    · exact hgs g h r2 hr2
    · rw [List.mem_singleton.mp h] at hr2
      cases hr2

theorem rowsPush_inv {quotes : List RfqUtils.SupplierQuote} (q : RfqUtils.SupplierQuote)
    (hq : q ∈ quotes) :
    ∀ (rows : List Row) (gs : List (String × List RfqUtils.QRec)),
      (∀ row ∈ rows, row ∈ RfqUtils.commercialRows q) →
      RfqUtils.InvGroups quotes gs →
      RfqUtils.InvGroups quotes (rows.foldl (fun gs row =>
        let up := getKey row "unit-price"
        if RfqUtils.priceMissing up then gs
        else RfqUtils.pushGroup gs (jsPropKey (getKey row "id"))
          { id := getKey row "id", baseLine := jsToNumber up, supplierId := q.supplierId }) gs) := by
  intro rows
  induction rows with
  | nil =>
    intro gs _ hgs
    exact hgs
  | cons row rs ih =>
    intro gs hrows hgs
    simp only [List.foldl_cons]
    apply ih
    · intro r2 h2
      exact hrows r2 (List.mem_cons_of_mem row h2)
    · show RfqUtils.InvGroups quotes
        (if RfqUtils.priceMissing (getKey row "unit-price") then gs
         else RfqUtils.pushGroup gs (jsPropKey (getKey row "id"))
           { id := getKey row "id", baseLine := jsToNumber (getKey row "unit-price"),
             supplierId := q.supplierId })
      by_cases hp : RfqUtils.priceMissing (getKey row "unit-price") = true
      · rw [if_pos hp]
        exact hgs
      · rw [if_neg hp]
        apply pushGroup_inv hgs
        exact ⟨q, hq, row, hrows row (List.mem_cons_self row rs), Bool.eq_false_iff.mpr hp, rfl⟩

theorem ensureFold_inv {quotes : List RfqUtils.SupplierQuote} :
    ∀ (rows : List Row) (gs : List (String × List RfqUtils.QRec)),
      RfqUtils.InvGroups quotes gs →
      RfqUtils.InvGroups quotes (rows.foldl (fun gs row =>
        RfqUtils.ensureGroup gs (jsPropKey (getKey row "id"))) gs) := by
  intro rows
  induction rows with
  | nil =>
    intro gs h
    exact h
  | cons row rs ih =>
    intro gs hgs
    simp only [List.foldl_cons]
    exact ih _ (ensureGroup_inv hgs)

theorem subsFold_inv {quotes : List RfqUtils.SupplierQuote} :
    ∀ (subs : List RfqUtils.QSubsection) (gs : List (String × List RfqUtils.QRec)),
      RfqUtils.InvGroups quotes gs →
      RfqUtils.InvGroups quotes (subs.foldl (fun gs sub =>
        match sub.tables.head? with
        | some tb => tb.data.foldl (fun gs row =>
            RfqUtils.ensureGroup gs (jsPropKey (getKey row "id"))) gs
        | none => gs) gs) := by
  intro subs
  induction subs with
  | nil =>
    intro gs h
    exact h
  | cons sub rs ih =>
    intro gs hgs
    simp only [List.foldl_cons]
    apply ih
    split
    · exact ensureFold_inv _ _ hgs
    · exact hgs

theorem quoteItemsStep_inv {quotes : List RfqUtils.SupplierQuote} {q : RfqUtils.SupplierQuote}
    (hq : q ∈ quotes) {gs : List (String × List RfqUtils.QRec)}
    (hgs : RfqUtils.InvGroups quotes gs) :
    RfqUtils.InvGroups quotes (RfqUtils.quoteItemsStep gs q) := by
  have h1 : RfqUtils.InvGroups quotes ((RfqUtils.commercialRows q).foldl (fun gs row =>
      let up := getKey row "unit-price"
      if RfqUtils.priceMissing up then gs
      else RfqUtils.pushGroup gs (jsPropKey (getKey row "id"))
        { id := getKey row "id", baseLine := jsToNumber up, supplierId := q.supplierId }) gs) :=
    rowsPush_inv q hq _ gs (fun _ h => h) hgs
  simp only [RfqUtils.quoteItemsStep]
  apply subsFold_inv
  split
  · exact ensureFold_inv _ _ h1
  · exact h1

theorem buildItemsById_inv (quotes : List RfqUtils.SupplierQuote) :
    RfqUtils.InvGroups quotes (RfqUtils.buildItemsById quotes) := by
  have main : ∀ (l : List RfqUtils.SupplierQuote) (gs : List (String × List RfqUtils.QRec)),
      (∀ q ∈ l, q ∈ quotes) → RfqUtils.InvGroups quotes gs →
      RfqUtils.InvGroups quotes (l.foldl RfqUtils.quoteItemsStep gs) := by
    intro l
    induction l with
    | nil =>
      intro gs _ h
      exact h
    | cons q rs ih =>
      intro gs hl hgs
      simp only [List.foldl_cons]
      exact ih _ (fun q2 h2 => hl q2 (List.mem_cons_of_mem q h2))
        (quoteItemsStep_inv (hl q (List.mem_cons_self q rs)) hgs)
  exact main quotes [] (fun _ h => h) (by intro g hg; cases hg)

/-- C8 (amended): the aggregation groups only records built from a
commercial row of one of the quotes whose unit price is present (not
undefined, null or an empty string), tagged with the producing supplier;
and whenever every record of a group carries an actual number (rather than
the `NaN` a non-numeric price yields), the per-group reduce returns a
member of the group whose baseline is numerically least.  Non-numeric
prices are NOT excluded: they enter the group with a `NaN` baseline, as
`claim_C8_counterexample` shows. -/
theorem claim_C8_amended :
    (∀ (quotes : List RfqUtils.SupplierQuote),
      RfqUtils.InvGroups quotes (RfqUtils.buildItemsById quotes))
    ∧ (∀ (recs : List RfqUtils.QRec) (r0 : RfqUtils.QRec),
        RfqUtils.reduceLowest recs = some r0 →
        (∀ r ∈ recs, RfqUtils.numericBaseLine r) →
        r0 ∈ recs ∧ ∀ r ∈ recs, RfqUtils.baseLineLe r0 r) := by
  constructor
  · exact buildItemsById_inv
  · intro recs r0 hred hall
    cases recs with
    | nil => simp [RfqUtils.reduceLowest] at hred
    | cons x xs =>
      simp only [RfqUtils.reduceLowest] at hred
      injection hred with hred
      obtain ⟨hmem, _, hle⟩ := foldLowest_min (x :: xs) x (hall x (List.mem_cons_self x xs)) hall
      subst hred
      constructor
      · rcases hmem with h | h
        · rw [h]
          exact List.mem_cons_self x xs
        · exact h
      · exact hle

theorem claim_C8_amended_witness :
    RfqUtils.reduceLowest Instances.recsC8 = some Instances.recLowC8
    ∧ Instances.recLowC8 ∈ Instances.recsC8
    ∧ RfqUtils.baseLineLe Instances.recLowC8 Instances.recHighC8 := by
  have hred : RfqUtils.reduceLowest Instances.recsC8 = some Instances.recLowC8 := by decide
  have hnum : ∀ r ∈ Instances.recsC8, RfqUtils.numericBaseLine r := by
    intro r hr
    have h3 : r ∈ [Instances.recHighC8, Instances.recLowC8] := hr
    rcases List.mem_cons.mp h3 with h | h4
    · rw [h]
      exact ⟨12, 1, rfl, by decide⟩
    · rcases List.mem_cons.mp h4 with h | h5
      · rw [h]
        exact ⟨19, 2, rfl, by decide⟩
      · cases h5
  obtain ⟨hmem, hall⟩ := claim_C8_amended.2 Instances.recsC8 Instances.recLowC8 hred hnum
  exact ⟨hred, hmem, hall Instances.recHighC8 (by decide)⟩

end Rick
